import Mathlib

/-!
Shallow embedding of `src/spateo/alignment/morpho_alignment.py`: the chain
aligner `morpho_align` and the reference-accelerated chain aligner
`morpho_align_ref`, together with the label-similarity matrix construction
they perform.  The external numerical primitives (`BA_align`, `BA_transform`,
`BA_transform_and_assignment`, `downsampling`, `_iteration`) live in sibling
modules of the repository that are not part of the analysed source; they are
represented by oracle functions together with the in-place writes their
documented contract performs.
-/

namespace Spateo

/-- Spatial coordinate array: a list of points, each a list of integer
coordinates.  Equality of these values models bit-for-bit equality of the
numpy arrays held in the `obsm` slots. -/
abbrev Coords := List (List Int)

/-- Opaque handle for a fitted deformation field (`VecFld`). -/
abbrev VecFld := Nat

/-- Opaque handle for an assignment matrix `P` produced by the registration
solver. -/
abbrev PiMat := Nat

/-- Opaque handle for a variance estimate `sigma2`. -/
abbrev Sigma2 := Nat

/-- Values stored in a sample's `uns` mapping: a fitted deformation field or
a per-iteration history record. -/
inductive UnsVal where
  | fld (f : VecFld)
  | hist (h : Nat)
deriving DecidableEq

/-- A pandas-style categorical column: per-point values together with the
declared category set (`.cat.categories`). -/
structure Categorical where
  values : List String
  categories : List String
deriving DecidableEq

/-- String-keyed mapping, modelling a python dict-like slot store. -/
abbrev OMap (α : Type) := String → Option α

/-- Write one key of a slot store (python `d[k] = v`). -/
def oset {α : Type} (f : OMap α) (k : String) (v : α) : OMap α :=
  fun q => if q = k then some v else f q

/-- An AnnData object, restricted to the parts the pipeline touches:
`.obsm` (coordinate slots), `.obs` (categorical columns), `.uns`
(deformation field / iteration history). -/
structure AnnData where
  obsm : OMap Coords
  obs : OMap Categorical
  uns : OMap UnsVal

/-- Read `m.obsm[k]`; a missing key is a python `KeyError`. -/
def getObsm (m : AnnData) (k : String) : Except String Coords :=
  match m.obsm k with
  | some c => .ok c
  | none => .error "KeyError: obsm"

/-- Write `m.obsm[k] = v`. -/
def setObsm (m : AnnData) (k : String) (v : Coords) : AnnData :=
  { m with obsm := oset m.obsm k v }

/-- Read `m.obs[k]`; a missing column is a python `KeyError`. -/
def getObs (m : AnnData) (k : String) : Except String Categorical :=
  match m.obs k with
  | some c => .ok c
  | none => .error "KeyError: obs"

/-- Read `m.uns[k]`; a missing key is a python `KeyError`. -/
def getUns (m : AnnData) (k : String) : Except String UnsVal :=
  match m.uns k with
  | some v => .ok v
  | none => .error "KeyError: uns"

/-- Write `m.uns[k] = v`. -/
def setUns (m : AnnData) (k : String) (v : UnsVal) : AnnData :=
  { m with uns := oset m.uns k v }

/-- `AnnData.copy()`: a deep copy.  On pure values it is the identity, but it
is applied exactly where the source copies, making the sharing structure of
the pipeline explicit. -/
def adCopy (m : AnnData) : AnnData := m

/-- Python list indexing `l[i]`; an out-of-range index is an `IndexError`. -/
def getAt {α : Type} (l : List α) (i : Nat) : Except String α :=
  match l.get? i with
  | some x => .ok x
  | none => .error "IndexError"

/-- Effectful map over a list, mirroring a python `for` loop that may raise
(elements are processed left to right, stopping at the first error). -/
def mapE {α β : Type} (f : α → Except String β) : List α → Except String (List β)
  | [] => .ok []
  | x :: xs => do
    let y ← f x
    let ys ← mapE f xs
    .ok (y :: ys)

/-- Effectful fold over a list of loop indices, mirroring the python pair
loop (each iteration may raise, aborting the rest of the loop). -/
def foldE {σ : Type} (step : σ → Nat → Except String σ) : σ → List Nat → Except String σ
  | st, [] => .ok st
  | st, i :: rest => do
    let st' ← step st i
    foldE step st' rest

/-- Modelled from the spec: `_iteration(n=..., progress_name=..., verbose=...)`
(from `.utils`, not part of the analysed source) yields the loop indices
`0, 1, ..., n-1` exactly as `range(n)` does; the progress display has no
algorithmic effect. -/
def iterationIndices (n : Nat) : List Nat := List.range n

/-! ## Label similarity matrix (numpy fragment of `morpho_align`) -/

/-- Lexicographic strict order on character lists, by code point. -/
def strLtB : List Char → List Char → Bool
  | [], [] => false
  | [], _ :: _ => true
  | _ :: _, [] => false
  | a :: as, b :: bs =>
    if a.toNat < b.toNat then true
    else if a.toNat = b.toNat then strLtB as bs
    else false

/-- Lexicographic order on strings (the order numpy sorts strings by). -/
def strLeB (a b : String) : Bool := !(strLtB b.data a.data)

/-- Insert a string into a sorted list of strings. -/
def insertSorted (x : String) : List String → List String
  | [] => [x]
  | y :: ys => if strLeB x y then x :: y :: ys else y :: insertSorted x ys

/-- Sort a list of strings. -/
def sortStrings (l : List String) : List String := l.foldr insertSorted []

/-- `np.union1d(xs, ys)`: the sorted list of distinct values occurring in
either input. -/
def unionCategories (xs ys : List String) : List String :=
  (sortStrings (xs ++ ys)).dedup

/-- Masked assignment `codes[vals == cat] = code` over a 1-d integer array. -/
def assignWhere (vals : List String) (codes : List Int) (cat : String) (code : Int) : List Int :=
  List.zipWith (fun v c => if v = cat then code else c) vals codes

/-- The code computation of `morpho_align`: starting from `np.zeros`, walk
`enumerate(UnionCategories)` and assign each category's enumeration index as
the code of the points carrying that category, with the literal category
`"unknown"` forced to code `-1`.  The source updates `catACode` and
`catBCode` in one joint loop whose body acts on each array independently;
this function is that loop's action on a single array. -/
def computeCodes (uc : List String) (vals : List String) : List Int :=
  uc.enum.foldl
    (fun codes p => assignWhere vals codes p.2 (if p.2 = "unknown" then -1 else (p.1 : Int)))
    (vals.map fun _ => 0)

/-- A numpy 2-d float array of 0/1 entries, with explicit dimensions and a
total entry function (entries outside the dimensions are irrelevant). -/
structure Mat where
  rows : Nat
  cols : Nat
  entry : Nat → Nat → Int

/-- `np.zeros((r, c))`. -/
def matZeros (r c : Nat) : Mat := ⟨r, c, fun _ _ => 0⟩

/-- Column assignment `M[:, j] = v`. -/
def matSetCol (M : Mat) (j : Nat) (v : Nat → Int) : Mat :=
  ⟨M.rows, M.cols, fun r c => if c = j then v r else M.entry r c⟩

/-- Matrix transpose `M.T`. -/
def matT (M : Mat) : Mat := ⟨M.cols, M.rows, fun r c => M.entry c r⟩

/-- The label-similarity-matrix block of `morpho_align` for the pair with
loop index `i`: union the category sets, compute integer codes, fill an
`[a x b]` work matrix column by column with the boolean vector
`catACode != catBCode[i]` (note: the source indexes `catBCode` with the pair
loop variable `i`, not the column loop variable `index`), then transpose. -/
def buildLabelSimMat (catA catB : Categorical) (i : Nat) : Except String Mat :=
  let uc := unionCategories catA.categories catB.categories
  let catACode := computeCodes uc catA.values
  let catBCode := computeCodes uc catB.values
  match catBCode.get? i with
  | none => .error "IndexError: catBCode"
  | some cBi =>
    let pre := (List.range catB.values.length).foldl
      (fun M index => matSetCol M index (fun r => if catACode.getD r 0 ≠ cBi then 1 else 0))
      (matZeros catA.values.length catB.values.length)
    .ok (matT pre)

/-! ## Oracles for the external numerical primitives -/

/-- What one `BA_align` call produces: the aligned coordinates it writes
under `key_added` on each sample, the fitted deformation field, an iteration
history record, the assignment matrix `P` and the variance `sigma2`. -/
structure RegOut where
  coordsA : Coords
  coordsB : Coords
  field : VecFld
  histVal : Nat
  P : PiMat
  sigma2 : Sigma2

/-- What one `BA_transform` call returns: nonrigid coordinates, the raw
vector-field output, and rigid-only coordinates. -/
structure TransOut where
  nonrigid : Coords
  rawOut : Nat
  rigid : Coords

/-- The external numerical primitives, as pure oracles.  `regOut` receives
the two samples as passed, the `spatial_key` argument of the call site and
the optional extra similarity matrix; `transOut` receives the deformation
field and the query points; `transAssign` receives the two samples
(`samples=[modelB, modelA]`) and the field; `downsampleOne` is the
per-sample action of `downsampling`. -/
structure Oracles where
  regOut : AnnData → AnnData → String → Option Mat → RegOut
  transOut : UnsVal → Coords → TransOut
  transAssign : AnnData → AnnData → UnsVal → PiMat × Coords
  downsampleOne : AnnData → AnnData

/-- Pipeline-level configuration shared by both aligners (the remaining
parameters — layer, genes, mode, dissimilarity, max_iter, dtype, device,
verbose — are forwarded to the primitives unchanged and are absorbed into
the oracles). -/
structure AlignCfg where
  spatial_key : String
  key_added : String
  iter_key_added : Option String
  vecfld_key_added : String
  label_key : Option String

/-- Modelled from the spec: `BA_align(..., inplace=True)` (the `Register`
primitive, from `.methods`, not part of the analysed source) writes the
aligned coordinates under `key_added` on the sample and, when
`iter_key_added` is given, the per-iteration history into `uns`; this is its
in-place action on `sampleA`. -/
def regWriteA (cfg : AlignCfg) (out : RegOut) (m : AnnData) : AnnData :=
  let m := setObsm m cfg.key_added out.coordsA
  match cfg.iter_key_added with
  | some k => setUns m k (.hist out.histVal)
  | none => m

/-- Modelled from the spec: the in-place action of `BA_align` on `sampleB`:
aligned coordinates under `key_added`, the fitted deformation field under
`vecfld_key_added` in `uns` (so that the caller can retrieve it from
`sampleB.uns`), and the per-iteration history when requested. -/
def regWriteB (cfg : AlignCfg) (out : RegOut) (m : AnnData) : AnnData :=
  let m := setObsm m cfg.key_added out.coordsB
  let m := setUns m cfg.vecfld_key_added (.fld out.field)
  match cfg.iter_key_added with
  | some k => setUns m k (.hist out.histVal)
  | none => m

/-! ## Chain aligner: `morpho_align` -/

/-- Record of one `BA_align` call: loop index, the two samples as passed,
the `spatial_key` argument, the `added_similarity` argument and the oracle
output. -/
structure RegCall where
  i : Nat
  sampleA : AnnData
  sampleB : AnnData
  spatialArg : String
  addedSim : Option Mat
  out : RegOut

/-- Record of one `BA_transform` call: loop index, the field, the query
points and the output. -/
structure TransCall where
  i : Nat
  fld : UnsVal
  query : Coords
  out : TransOut

/-- Loop state of `morpho_align`: the evolving sample list, the two result
lists and the call traces. -/
structure AState where
  align_models : List AnnData
  pis : List PiMat
  sigma2s : List Sigma2
  regCalls : List RegCall
  transCalls : List TransCall

/-- The label-similarity block guarded by `label_key is not None`: read
`modelA.obs[label_key]` and `modelB.obs[label_key]` and build the matrix;
with no label key, pass `None`. -/
def buildLabelSim (cfg : AlignCfg) (mA mB : AnnData) (i : Nat) :
    Except String (Option Mat) :=
  match cfg.label_key with
  | none => .ok none
  | some lk => do
    let catA ← getObs mA lk
    let catB ← getObs mB lk
    let M ← buildLabelSimMat catA catB i
    .ok (some M)

/-- One iteration of the pair loop of `morpho_align`: fetch the pair, build
the optional label similarity, run `BA_align` (in place, with
`spatial_key="optimal_RnA"`), run `BA_transform` on
`modelB.obsm[spatial_key]` storing the rigid output under
`"Rigid_align_spatial"`, and append `P` and `sigma2`.  The `empty_cache`
call has no algorithmic effect and is omitted. -/
def alignStep (O : Oracles) (cfg : AlignCfg) (st : AState) (i : Nat) :
    Except String AState := do
  let modelA ← getAt st.align_models i
  let modelB ← getAt st.align_models (i + 1)
  let sim ← buildLabelSim cfg modelA modelB i
  let out := O.regOut modelA modelB "optimal_RnA" sim
  let modelA' := regWriteA cfg out modelA
  let modelB' := regWriteB cfg out modelB
  let f ← getUns modelB' cfg.vecfld_key_added
  let q ← getObsm modelB' cfg.spatial_key
  let t := O.transOut f q
  let modelB2 := setObsm modelB' "Rigid_align_spatial" t.rigid
  .ok
    { align_models := (st.align_models.set i modelA').set (i + 1) modelB2
      pis := st.pis ++ [out.P]
      sigma2s := st.sigma2s ++ [out.sigma2]
      regCalls := st.regCalls ++ [⟨i, modelA, modelB, "optimal_RnA", sim, out⟩]
      transCalls := st.transCalls ++ [⟨i, f, q, t⟩] }

/-- Seeding loop `for m in models: m.obsm[k] = m.obsm[spatial_key]`. -/
def seedStage (k : String) (spatial_key : String) (ms : List AnnData) :
    Except String (List AnnData) :=
  mapE (fun m => do
    let raw ← getObsm m spatial_key
    .ok (setObsm m k raw)) ms

/-- The four seeding loops at the top of `morpho_align`, in source order. -/
def seedPhase (cfg : AlignCfg) (ms : List AnnData) : Except String (List AnnData) := do
  let ms ← seedStage cfg.key_added cfg.spatial_key ms
  let ms ← seedStage "Rigid_3d_align_spatial" cfg.spatial_key ms
  let ms ← seedStage "Coarse_alignment" cfg.spatial_key ms
  let ms ← seedStage "optimal_RnA" cfg.spatial_key ms
  .ok ms

/-- The net effect of the four seeding loops on one sample whose raw
coordinates are `raw`. -/
def seedAllFn (cfg : AlignCfg) (m : AnnData) (raw : Coords) : AnnData :=
  setObsm (setObsm (setObsm (setObsm m cfg.key_added raw)
    "Rigid_3d_align_spatial" raw) "Coarse_alignment" raw) "optimal_RnA" raw

/-- Full result of `morpho_align`; `callerModels` is the state of the
caller's input list when the function returns (the seeding loops run on the
caller's samples, before the copies are taken). -/
structure AlignResult where
  callerModels : List AnnData
  align_models : List AnnData
  pis : List PiMat
  sigma2s : List Sigma2
  regCalls : List RegCall
  transCalls : List TransCall

/-- `morpho_align`: seed four coordinate slots on the caller's samples, copy
the list, and run the pair loop over `range(len(align_models) - 1)`. -/
def morpho_align (O : Oracles) (cfg : AlignCfg) (models : List AnnData) :
    Except String AlignResult := do
  let seeded ← seedPhase cfg models
  let st ← foldE (alignStep O cfg) ⟨seeded.map adCopy, [], [], [], []⟩
    (iterationIndices ((seeded.map adCopy).length - 1))
  .ok ⟨seeded, st.align_models, st.pis, st.sigma2s, st.regCalls, st.transCalls⟩

/-! ## Reference-accelerated chain aligner: `morpho_align_ref` -/

/-- Record of one back-projection step of `morpho_align_ref`: loop index,
the deformation field passed, which branch ran
(`return_full_assignment`), the coordinates written to `modelB`'s output
slot, the rigid output when the `BA_transform` branch ran, and the `P`
appended to the full-resolution list. -/
structure BackCall where
  i : Nat
  fld : UnsVal
  usedAssign : Bool
  outCoords : Coords
  rigidOut : Option Coords
  Pout : PiMat

/-- Loop state of `morpho_align_ref`: the two parallel chains, the three
result lists and the call traces. -/
structure RState where
  align_models : List AnnData
  align_models_ref : List AnnData
  pis : List PiMat
  pis_ref : List PiMat
  sigma2s : List Sigma2
  regCalls : List RegCall
  backCalls : List BackCall

/-- One iteration of the pair loop of `morpho_align_ref`: register the
reference pair (in place, with `spatial_key=key_added`), record `P` and
`sigma2`, copy the fitted field reference onto full-resolution `modelB`,
then back-project with `BA_transform_and_assignment` (when
`return_full_assignment`) or `BA_transform`, and append the resulting `P`
to the full-resolution list (the `else` branch leaves `P` bound to the
reference-pair result). -/
def refStep (O : Oracles) (cfg : AlignCfg) (fullAssign : Bool) (st : RState) (i : Nat) :
    Except String RState := do
  let modelA_ref ← getAt st.align_models_ref i
  let modelB_ref ← getAt st.align_models_ref (i + 1)
  let out := O.regOut modelA_ref modelB_ref cfg.key_added none
  let modelA_ref' := regWriteA cfg out modelA_ref
  let modelB_ref' := regWriteB cfg out modelB_ref
  let refs := (st.align_models_ref.set i modelA_ref').set (i + 1) modelB_ref'
  let modelA ← getAt st.align_models i
  let modelB ← getAt st.align_models (i + 1)
  let f ← getUns modelB_ref' cfg.vecfld_key_added
  let modelB1 := setUns modelB cfg.vecfld_key_added f
  let pr ←
    if fullAssign then
      let pr := O.transAssign modelB1 modelA f
      .ok ((⟨i, f, true, pr.2, none, pr.1⟩ : BackCall),
        setObsm modelB1 cfg.key_added pr.2)
    else do
      let q ← getObsm modelB1 cfg.spatial_key
      let t := O.transOut f q
      .ok ((⟨i, f, false, t.nonrigid, some t.rigid, out.P⟩ : BackCall),
        setObsm (setObsm modelB1 cfg.key_added t.nonrigid) "Rigid_align_spatial" t.rigid)
  .ok
    { align_models := st.align_models.set (i + 1) pr.2
      align_models_ref := refs
      pis := st.pis ++ [pr.1.Pout]
      pis_ref := st.pis_ref ++ [out.P]
      sigma2s := st.sigma2s ++ [out.sigma2]
      regCalls := st.regCalls ++ [⟨i, modelA_ref, modelB_ref, cfg.key_added, none, out⟩]
      backCalls := st.backCalls ++ [pr.1] }

/-- Setup phase of `morpho_align_ref`: the reference list is derived by
downsampling copies of the inputs when none is supplied
(`downsampling` applied per sample, length-preserving). -/
def refSource (O : Oracles) (models : List AnnData) :
    Option (List AnnData) → List AnnData
  | some mr => mr
  | none => (models.map adCopy).map O.downsampleOne

/-- Setup continued: copy both lists, seed the output slot of every
reference sample, then seed `align_models[0]`'s output slot only (an empty
input list makes `align_models[0]` an `IndexError`). -/
def refInit (O : Oracles) (cfg : AlignCfg) (models : List AnnData)
    (models_ref : Option (List AnnData)) : Except String RState := do
  let align_models_ref ← seedStage cfg.key_added cfg.spatial_key
    ((refSource O models models_ref).map adCopy)
  match models.map adCopy with
  | [] => .error "IndexError: align_models"
  | m :: rest => do
    let raw ← getObsm m cfg.spatial_key
    .ok ⟨setObsm m cfg.key_added raw :: rest, align_models_ref, [], [], [], [], []⟩

/-- Full result of `morpho_align_ref`; `callerModels` and `callerModelsRef`
are the caller's input lists as they stand when the function returns. -/
structure RefResult where
  callerModels : List AnnData
  callerModelsRef : Option (List AnnData)
  align_models : List AnnData
  align_models_ref : List AnnData
  pis : List PiMat
  pis_ref : List PiMat
  sigma2s : List Sigma2
  regCalls : List RegCall
  backCalls : List BackCall

/-- `morpho_align_ref`: setup, then the pair loop over
`range(len(align_models) - 1)`. -/
def morpho_align_ref (O : Oracles) (cfg : AlignCfg) (fullAssign : Bool)
    (models : List AnnData) (models_ref : Option (List AnnData)) :
    Except String RefResult := do
  let st0 ← refInit O cfg models models_ref
  let st ← foldE (refStep O cfg fullAssign) st0
    (iterationIndices (st0.align_models.length - 1))
  .ok ⟨models, models_ref, st.align_models, st.align_models_ref, st.pis, st.pis_ref,
    st.sigma2s, st.regCalls, st.backCalls⟩

/-! ## General lemmas about the embedding's combinators -/

theorem bindE_ok {α β : Type} (a : α) (f : α → Except String β) :
    (Except.ok a >>= f : Except String β) = f a := rfl

theorem bindE_err {α β : Type} (e : String) (f : α → Except String β) :
    ((Except.error e : Except String α) >>= f) = .error e := rfl

theorem getAt_ok {α : Type} {l : List α} {i : Nat} {x : α} :
    getAt l i = .ok x ↔ l.get? i = some x := by
  unfold getAt
  cases h : l.get? i <;> simp

theorem getObsm_ok {m : AnnData} {k : String} {c : Coords} :
    getObsm m k = .ok c ↔ m.obsm k = some c := by
  unfold getObsm
  cases h : m.obsm k <;> simp

theorem getObs_ok {m : AnnData} {k : String} {c : Categorical} :
    getObs m k = .ok c ↔ m.obs k = some c := by
  unfold getObs
  cases h : m.obs k <;> simp

theorem getUns_ok {m : AnnData} {k : String} {v : UnsVal} :
    getUns m k = .ok v ↔ m.uns k = some v := by
  unfold getUns
  cases h : m.uns k <;> simp

theorem setObsm_obsm (m : AnnData) (k : String) (v : Coords) (q : String) :
    (setObsm m k v).obsm q = if q = k then some v else m.obsm q := rfl

theorem setObsm_obs (m : AnnData) (k : String) (v : Coords) :
    (setObsm m k v).obs = m.obs := rfl

theorem setObsm_uns (m : AnnData) (k : String) (v : Coords) :
    (setObsm m k v).uns = m.uns := rfl

theorem setUns_uns (m : AnnData) (k : String) (v : UnsVal) (q : String) :
    (setUns m k v).uns q = if q = k then some v else m.uns q := rfl

theorem setUns_obsm (m : AnnData) (k : String) (v : UnsVal) :
    (setUns m k v).obsm = m.obsm := rfl

theorem setUns_obs (m : AnnData) (k : String) (v : UnsVal) :
    (setUns m k v).obs = m.obs := rfl

theorem regWriteA_obs (cfg : AlignCfg) (out : RegOut) (m : AnnData) :
    (regWriteA cfg out m).obs = m.obs := by
  unfold regWriteA
  cases cfg.iter_key_added <;> rfl

theorem regWriteA_obsm (cfg : AlignCfg) (out : RegOut) (m : AnnData) (q : String) :
    (regWriteA cfg out m).obsm q =
      if q = cfg.key_added then some out.coordsA else m.obsm q := by
  unfold regWriteA
  cases cfg.iter_key_added <;> rfl

theorem regWriteB_obs (cfg : AlignCfg) (out : RegOut) (m : AnnData) :
    (regWriteB cfg out m).obs = m.obs := by
  unfold regWriteB
  cases cfg.iter_key_added <;> rfl

theorem regWriteB_obsm (cfg : AlignCfg) (out : RegOut) (m : AnnData) (q : String) :
    (regWriteB cfg out m).obsm q =
      if q = cfg.key_added then some out.coordsB else m.obsm q := by
  unfold regWriteB
  cases cfg.iter_key_added <;> rfl

theorem regWriteA_uns (cfg : AlignCfg) (out : RegOut) (m : AnnData) (q : String)
    (hq : cfg.iter_key_added ≠ some q) :
    (regWriteA cfg out m).uns q = m.uns q := by
  unfold regWriteA
  cases h : cfg.iter_key_added with
  | none => rfl
  | some k =>
    have hqk : ¬ (q = k) := fun hh => hq (by rw [h, hh])
    simp [setUns_uns, setObsm_uns, hqk]

theorem regWriteB_uns (cfg : AlignCfg) (out : RegOut) (m : AnnData) (q : String)
    (hq : cfg.iter_key_added ≠ some q) :
    (regWriteB cfg out m).uns q =
      if q = cfg.vecfld_key_added then some (.fld out.field) else m.uns q := by
  unfold regWriteB
  cases h : cfg.iter_key_added with
  | none => rfl
  | some k =>
    have hqk : ¬ (q = k) := fun hh => hq (by rw [h, hh])
    simp [setUns_uns, setObsm_uns, hqk]

theorem mapE_ok_length {α β : Type} {f : α → Except String β} :
    ∀ {xs : List α} {ys : List β}, mapE f xs = .ok ys → ys.length = xs.length := by
  intro xs
  induction xs with
  | nil => intro ys h; simp only [mapE] at h; cases h; rfl
  | cons x xs ih =>
    intro ys h
    simp only [mapE] at h
    cases hx : f x with
    | error e => rw [hx, bindE_err] at h; cases h
    | ok y =>
      rw [hx, bindE_ok] at h
      cases hxs : mapE f xs with
      | error e => rw [hxs, bindE_err] at h; cases h
      | ok ys' =>
        rw [hxs, bindE_ok] at h
        cases h
        have hlen : ys'.length = xs.length := ih hxs
        simp [hlen]

theorem mapE_ok_get {α β : Type} {f : α → Except String β} :
    ∀ {xs : List α} {ys : List β} {j : Nat} {x : α}, mapE f xs = .ok ys →
      xs.get? j = some x → ∃ y, ys.get? j = some y ∧ f x = .ok y := by
  intro xs
  induction xs with
  | nil => intro ys j x h hx; cases hx
  | cons a xs ih =>
    intro ys j x h hx
    simp only [mapE] at h
    cases ha : f a with
    | error e => rw [ha, bindE_err] at h; cases h
    | ok y =>
      rw [ha, bindE_ok] at h
      cases hxs : mapE f xs with
      | error e => rw [hxs, bindE_err] at h; cases h
      | ok ys' =>
        rw [hxs, bindE_ok] at h
        cases h
        cases j with
        | zero => cases hx; exact ⟨y, rfl, ha⟩
        | succ j =>
          obtain ⟨z, hz, hfz⟩ := ih hxs hx
          exact ⟨z, by simpa using hz, hfz⟩

theorem foldE_append {σ : Type} (step : σ → Nat → Except String σ)
    (l₁ l₂ : List Nat) :
    ∀ st, foldE step st (l₁ ++ l₂) =
      match foldE step st l₁ with
      | .ok st' => foldE step st' l₂
      | .error e => .error e := by
  induction l₁ with
  | nil => intro st; rfl
  | cons i rest ih =>
    intro st
    simp only [List.cons_append, foldE]
    cases h : step st i with
    | error e => rw [bindE_err, bindE_err]
    | ok st' =>
      rw [bindE_ok, bindE_ok]
      exact ih st'

theorem foldE_range_succ {σ : Type} (step : σ → Nat → Except String σ)
    (n : Nat) (st : σ) :
    foldE step st (List.range (n + 1)) =
      match foldE step st (List.range n) with
      | .ok st' => step st' n
      | .error e => .error e := by
  rw [List.range_succ, foldE_append]
  cases h : foldE step st (List.range n) with
  | error e => rfl
  | ok st' =>
    simp only [foldE]
    cases h2 : step st' n with
    | error e => simp [bindE_err]
    | ok st2 => simp [bindE_ok, foldE]

theorem foldE_range_inv {σ : Type} {P : Nat → σ → Prop}
    {step : σ → Nat → Except String σ}
    (hstep : ∀ k s s', P k s → step s k = .ok s' → P (k + 1) s') :
    ∀ (n : Nat) {s s' : σ}, P 0 s → foldE step s (List.range n) = .ok s' → P n s' := by
  intro n
  induction n with
  | zero =>
    intro s s' h0 h
    simp only [List.range_zero, foldE] at h
    cases h
    exact h0
  | succ n ih =>
    intro s s' h0 h
    rw [foldE_range_succ] at h
    cases hf : foldE step s (List.range n) with
    | error e => rw [hf] at h; cases h
    | ok st' =>
      rw [hf] at h
      exact hstep n st' s' (ih h0 hf) h

/-! ## Inversion lemmas for the seeding phase and the pair loops -/

theorem map_adCopy (ms : List AnnData) : ms.map adCopy = ms := List.map_id ms

theorem setObsm_same {m : AnnData} {k q : String} {raw : Coords}
    (hv : m.obsm q = some raw) : (setObsm m k raw).obsm q = some raw := by
  rw [setObsm_obsm]
  by_cases hqk : q = k <;> simp [hqk, hv]

theorem seedStage_ok_length {k sk : String} {ms ms' : List AnnData}
    (h : seedStage k sk ms = .ok ms') : ms'.length = ms.length := by
  unfold seedStage at h
  exact mapE_ok_length h

theorem seedStage_ok_get {k sk : String} {ms ms' : List AnnData}
    (h : seedStage k sk ms = .ok ms') {j : Nat} {m : AnnData}
    (hm : ms.get? j = some m) :
    ∃ raw, m.obsm sk = some raw ∧ ms'.get? j = some (setObsm m k raw) := by
  unfold seedStage at h
  obtain ⟨y, hy, hf⟩ := mapE_ok_get h hm
  cases hraw : getObsm m sk with
  | error e => rw [hraw, bindE_err] at hf; cases hf
  | ok raw =>
    rw [hraw, bindE_ok] at hf
    cases hf
    exact ⟨raw, getObsm_ok.mp hraw, hy⟩

theorem seedAllFn_obs (cfg : AlignCfg) (m : AnnData) (raw : Coords) :
    (seedAllFn cfg m raw).obs = m.obs := rfl

theorem seedAllFn_uns (cfg : AlignCfg) (m : AnnData) (raw : Coords) :
    (seedAllFn cfg m raw).uns = m.uns := rfl

theorem seedAllFn_obsm (cfg : AlignCfg) (m : AnnData) (raw : Coords) (q : String) :
    (seedAllFn cfg m raw).obsm q =
      if q = "optimal_RnA" then some raw
      else if q = "Coarse_alignment" then some raw
      else if q = "Rigid_3d_align_spatial" then some raw
      else if q = cfg.key_added then some raw
      else m.obsm q := rfl

theorem seedAllFn_spatial {cfg : AlignCfg} {m : AnnData} {raw : Coords}
    (hm : m.obsm cfg.spatial_key = some raw) :
    (seedAllFn cfg m raw).obsm cfg.spatial_key = some raw := by
  rw [seedAllFn_obsm]
  split
  · rfl
  split
  · rfl
  split
  · rfl
  split
  · rfl
  exact hm

theorem seedPhase_ok_length {cfg : AlignCfg} {ms ms' : List AnnData}
    (h : seedPhase cfg ms = .ok ms') : ms'.length = ms.length := by
  unfold seedPhase at h
  cases h1 : seedStage cfg.key_added cfg.spatial_key ms with
  | error e => rw [h1, bindE_err] at h; cases h
  | ok ms1 =>
    rw [h1, bindE_ok] at h
    cases h2 : seedStage "Rigid_3d_align_spatial" cfg.spatial_key ms1 with
    | error e => rw [h2, bindE_err] at h; cases h
    | ok ms2 =>
      rw [h2, bindE_ok] at h
      cases h3 : seedStage "Coarse_alignment" cfg.spatial_key ms2 with
      | error e => rw [h3, bindE_err] at h; cases h
      | ok ms3 =>
        rw [h3, bindE_ok] at h
        cases h4 : seedStage "optimal_RnA" cfg.spatial_key ms3 with
        | error e => rw [h4, bindE_err] at h; cases h
        | ok ms4 =>
          rw [h4, bindE_ok] at h
          cases h
          rw [seedStage_ok_length h4, seedStage_ok_length h3,
            seedStage_ok_length h2, seedStage_ok_length h1]

theorem seedPhase_ok_get {cfg : AlignCfg} {ms ms' : List AnnData}
    (h : seedPhase cfg ms = .ok ms') {j : Nat} {m : AnnData}
    (hm : ms.get? j = some m) :
    ∃ raw, m.obsm cfg.spatial_key = some raw ∧
      ms'.get? j = some (seedAllFn cfg m raw) := by
  unfold seedPhase at h
  cases h1 : seedStage cfg.key_added cfg.spatial_key ms with
  | error e => rw [h1, bindE_err] at h; cases h
  | ok ms1 =>
    rw [h1, bindE_ok] at h
    cases h2 : seedStage "Rigid_3d_align_spatial" cfg.spatial_key ms1 with
    | error e => rw [h2, bindE_err] at h; cases h
    | ok ms2 =>
      rw [h2, bindE_ok] at h
      cases h3 : seedStage "Coarse_alignment" cfg.spatial_key ms2 with
      | error e => rw [h3, bindE_err] at h; cases h
      | ok ms3 =>
        rw [h3, bindE_ok] at h
        cases h4 : seedStage "optimal_RnA" cfg.spatial_key ms3 with
        | error e => rw [h4, bindE_err] at h; cases h
        | ok ms4 =>
          rw [h4, bindE_ok] at h
          cases h
          obtain ⟨r1, hr1, hg1⟩ := seedStage_ok_get h1 hm
          obtain ⟨r2, hr2, hg2⟩ := seedStage_ok_get h2 hg1
          obtain ⟨r3, hr3, hg3⟩ := seedStage_ok_get h3 hg2
          obtain ⟨r4, hr4, hg4⟩ := seedStage_ok_get h4 hg3
          rw [setObsm_same hr1] at hr2
          cases hr2
          rw [setObsm_same (setObsm_same hr1)] at hr3
          cases hr3
          rw [setObsm_same (setObsm_same (setObsm_same hr1))] at hr4
          cases hr4
          exact ⟨r1, hr1, hg4⟩

theorem morpho_align_ok {O : Oracles} {cfg : AlignCfg} {models : List AnnData}
    {r : AlignResult} (h : morpho_align O cfg models = .ok r) :
    ∃ seeded st, seedPhase cfg models = .ok seeded ∧
      foldE (alignStep O cfg) ⟨seeded, [], [], [], []⟩
        (List.range (models.length - 1)) = .ok st ∧
      r = ⟨seeded, st.align_models, st.pis, st.sigma2s, st.regCalls, st.transCalls⟩ := by
  unfold morpho_align at h
  cases hs : seedPhase cfg models with
  | error e => rw [hs, bindE_err] at h; cases h
  | ok seeded =>
    rw [hs, bindE_ok] at h
    rw [map_adCopy] at h
    rw [seedPhase_ok_length hs] at h
    unfold iterationIndices at h
    cases hf : foldE (alignStep O cfg) ⟨seeded, [], [], [], []⟩
        (List.range (models.length - 1)) with
    | error e => rw [hf, bindE_err] at h; cases h
    | ok st =>
      rw [hf, bindE_ok] at h
      cases h
      exact ⟨seeded, st, rfl, hf, rfl⟩

theorem alignStep_ok {O : Oracles} {cfg : AlignCfg} {st : AState} {i : Nat}
    {st' : AState} (h : alignStep O cfg st i = .ok st') :
    ∃ mA mB sim f q,
      st.align_models.get? i = some mA ∧
      st.align_models.get? (i + 1) = some mB ∧
      buildLabelSim cfg mA mB i = .ok sim ∧
      getUns (regWriteB cfg (O.regOut mA mB "optimal_RnA" sim) mB)
        cfg.vecfld_key_added = .ok f ∧
      getObsm (regWriteB cfg (O.regOut mA mB "optimal_RnA" sim) mB)
        cfg.spatial_key = .ok q ∧
      st' = { align_models :=
                (st.align_models.set i
                  (regWriteA cfg (O.regOut mA mB "optimal_RnA" sim) mA)).set (i + 1)
                  (setObsm (regWriteB cfg (O.regOut mA mB "optimal_RnA" sim) mB)
                    "Rigid_align_spatial" (O.transOut f q).rigid)
              pis := st.pis ++ [(O.regOut mA mB "optimal_RnA" sim).P]
              sigma2s := st.sigma2s ++ [(O.regOut mA mB "optimal_RnA" sim).sigma2]
              regCalls := st.regCalls ++
                [⟨i, mA, mB, "optimal_RnA", sim, O.regOut mA mB "optimal_RnA" sim⟩]
              transCalls := st.transCalls ++ [⟨i, f, q, O.transOut f q⟩] } := by
  simp only [alignStep] at h
  cases hA : getAt st.align_models i with
  | error e => rw [hA, bindE_err] at h; cases h
  | ok mA =>
    rw [hA, bindE_ok] at h
    cases hB : getAt st.align_models (i + 1) with
    | error e => rw [hB, bindE_err] at h; cases h
    | ok mB =>
      rw [hB, bindE_ok] at h
      cases hS : buildLabelSim cfg mA mB i with
      | error e => rw [hS, bindE_err] at h; cases h
      | ok sim =>
        rw [hS, bindE_ok] at h
        cases hF : getUns (regWriteB cfg (O.regOut mA mB "optimal_RnA" sim) mB)
            cfg.vecfld_key_added with
        | error e => rw [hF, bindE_err] at h; cases h
        | ok f =>
          rw [hF, bindE_ok] at h
          cases hQ : getObsm (regWriteB cfg (O.regOut mA mB "optimal_RnA" sim) mB)
              cfg.spatial_key with
          | error e => rw [hQ, bindE_err] at h; cases h
          | ok q =>
            rw [hQ, bindE_ok] at h
            cases h
            exact ⟨mA, mB, sim, f, q, getAt_ok.mp hA, getAt_ok.mp hB, hS, hF, hQ, rfl⟩

/-! ## Label-similarity characterization -/

theorem buildLabelSim_ok_some {cfg : AlignCfg} {mA mB : AnnData} {i : Nat}
    {sim : Option Mat} {lk : String} (hlk : cfg.label_key = some lk)
    (h : buildLabelSim cfg mA mB i = .ok sim) :
    ∃ catA catB M, mA.obs lk = some catA ∧ mB.obs lk = some catB ∧
      buildLabelSimMat catA catB i = .ok M ∧ sim = some M := by
  unfold buildLabelSim at h
  rw [hlk] at h
  dsimp only at h
  cases hA : getObs mA lk with
  | error e => rw [hA, bindE_err] at h; cases h
  | ok catA =>
    rw [hA, bindE_ok] at h
    cases hB : getObs mB lk with
    | error e => rw [hB, bindE_err] at h; cases h
    | ok catB =>
      rw [hB, bindE_ok] at h
      cases hM : buildLabelSimMat catA catB i with
      | error e => rw [hM, bindE_err] at h; cases h
      | ok M =>
        rw [hM, bindE_ok] at h
        cases h
        exact ⟨catA, catB, M, getObs_ok.mp hA, getObs_ok.mp hB, hM, rfl⟩

theorem setColFold_rows (v : Nat → Int) (M0 : Mat) :
    ∀ (l : List Nat),
      (l.foldl (fun M idx => matSetCol M idx v) M0).rows = M0.rows := by
  intro l
  induction l generalizing M0 with
  | nil => rfl
  | cons i rest ih => simp only [List.foldl_cons]; rw [ih]; rfl

theorem setColFold_cols (v : Nat → Int) (M0 : Mat) :
    ∀ (l : List Nat),
      (l.foldl (fun M idx => matSetCol M idx v) M0).cols = M0.cols := by
  intro l
  induction l generalizing M0 with
  | nil => rfl
  | cons i rest ih => simp only [List.foldl_cons]; rw [ih]; rfl

theorem matSetCol_entry (M : Mat) (j : Nat) (v : Nat → Int) (r c : Nat) :
    (matSetCol M j v).entry r c = if c = j then v r else M.entry r c := rfl

theorem setColFold_entry (v : Nat → Int) (M0 : Mat) (b : Nat) (r c : Nat) :
    ((List.range b).foldl (fun M idx => matSetCol M idx v) M0).entry r c =
      if c < b then v r else M0.entry r c := by
  induction b with
  | zero => simp
  | succ b ih =>
    rw [List.range_succ, List.foldl_append]
    simp only [List.foldl_cons, List.foldl_nil]
    rw [matSetCol_entry]
    by_cases hc : c = b
    · simp [hc]
    · rw [if_neg hc, ih]
      by_cases hcb : c < b
      · rw [if_pos hcb, if_pos (Nat.lt_succ_of_lt hcb)]
      · rw [if_neg hcb, if_neg (by omega : ¬ c < b + 1)]

theorem buildLabelSimMat_ok {catA catB : Categorical} {i : Nat} {M : Mat}
    (h : buildLabelSimMat catA catB i = .ok M) :
    ∃ cBi,
      (computeCodes (unionCategories catA.categories catB.categories)
        catB.values).get? i = some cBi ∧
      M.rows = catB.values.length ∧ M.cols = catA.values.length ∧
      (∀ j c, j < catB.values.length →
        M.entry j c =
          if (computeCodes (unionCategories catA.categories catB.categories)
              catA.values).getD c 0 ≠ cBi then 1 else 0) ∧
      (∀ j c, ¬ j < catB.values.length → M.entry j c = 0) := by
  simp only [buildLabelSimMat] at h
  cases hB : (computeCodes (unionCategories catA.categories catB.categories)
      catB.values).get? i with
  | none => rw [hB] at h; cases h
  | some cBi =>
    rw [hB] at h
    dsimp only at h
    cases h
    refine ⟨cBi, rfl, ?_, ?_, ?_, ?_⟩
    · show (matT _).rows = _
      unfold matT
      rw [setColFold_cols]
      rfl
    · show (matT _).cols = _
      unfold matT
      rw [setColFold_rows]
      rfl
    · intro j c hj
      show (matT _).entry j c = _
      unfold matT
      simp only
      rw [setColFold_entry]
      simp [hj]
    · intro j c hj
      show (matT _).entry j c = _
      unfold matT
      simp only
      rw [setColFold_entry]
      simp [hj, matZeros]

theorem assignWhere_length (vals : List String) (codes : List Int)
    (cat : String) (code : Int) :
    (assignWhere vals codes cat code).length = min vals.length codes.length := by
  simp [assignWhere]

theorem computeCodes_length (uc vals : List String) :
    (computeCodes uc vals).length = vals.length := by
  unfold computeCodes
  have main : ∀ (l : List (Nat × String)) (codes : List Int),
      codes.length = vals.length →
      (l.foldl (fun codes p => assignWhere vals codes p.2
        (if p.2 = "unknown" then -1 else (p.1 : Int))) codes).length = vals.length := by
    intro l
    induction l with
    | nil => intro codes hc; exact hc
    | cons p rest ih =>
      intro codes hc
      simp only [List.foldl_cons]
      apply ih
      rw [assignWhere_length, hc, Nat.min_self]
  apply main
  simp

/-! ## Inversion lemmas for `morpho_align_ref` -/

theorem refInit_ok {O : Oracles} {cfg : AlignCfg} {models : List AnnData}
    {models_ref : Option (List AnnData)} {st0 : RState}
    (h : refInit O cfg models models_ref = .ok st0) :
    ∃ refsSeeded m rest raw,
      seedStage cfg.key_added cfg.spatial_key
        ((refSource O models models_ref).map adCopy) = .ok refsSeeded ∧
      models = m :: rest ∧
      m.obsm cfg.spatial_key = some raw ∧
      st0 = ⟨setObsm m cfg.key_added raw :: rest, refsSeeded, [], [], [], [], []⟩ := by
  unfold refInit at h
  cases hs : seedStage cfg.key_added cfg.spatial_key
      ((refSource O models models_ref).map adCopy) with
  | error e => rw [hs, bindE_err] at h; cases h
  | ok refsSeeded =>
    rw [hs, bindE_ok, map_adCopy] at h
    cases models with
    | nil => cases h
    | cons m rest =>
      simp only at h
      cases hraw : getObsm m cfg.spatial_key with
      | error e => rw [hraw, bindE_err] at h; cases h
      | ok raw =>
        rw [hraw, bindE_ok] at h
        cases h
        exact ⟨refsSeeded, m, rest, raw, rfl, rfl, getObsm_ok.mp hraw, rfl⟩

theorem refInit_align_length {O : Oracles} {cfg : AlignCfg}
    {models : List AnnData} {models_ref : Option (List AnnData)} {st0 : RState}
    (h : refInit O cfg models models_ref = .ok st0) :
    st0.align_models.length = models.length := by
  obtain ⟨refsSeeded, m, rest, raw, _, hm, _, hst⟩ := refInit_ok h
  rw [hst, hm]
  rfl

theorem refInit_ref_length {O : Oracles} {cfg : AlignCfg}
    {models : List AnnData} {models_ref : Option (List AnnData)} {st0 : RState}
    (h : refInit O cfg models models_ref = .ok st0) :
    st0.align_models_ref.length = (refSource O models models_ref).length := by
  obtain ⟨refsSeeded, m, rest, raw, hs, hm, _, hst⟩ := refInit_ok h
  rw [hst]
  show refsSeeded.length = _
  rw [seedStage_ok_length hs, List.length_map]

theorem morpho_align_ref_ok {O : Oracles} {cfg : AlignCfg} {fa : Bool}
    {models : List AnnData} {models_ref : Option (List AnnData)} {r : RefResult}
    (h : morpho_align_ref O cfg fa models models_ref = .ok r) :
    ∃ st0 st, refInit O cfg models models_ref = .ok st0 ∧
      foldE (refStep O cfg fa) st0 (List.range (models.length - 1)) = .ok st ∧
      r = ⟨models, models_ref, st.align_models, st.align_models_ref, st.pis,
        st.pis_ref, st.sigma2s, st.regCalls, st.backCalls⟩ := by
  unfold morpho_align_ref at h
  cases h0 : refInit O cfg models models_ref with
  | error e => rw [h0, bindE_err] at h; cases h
  | ok st0 =>
    rw [h0, bindE_ok] at h
    unfold iterationIndices at h
    rw [refInit_align_length h0] at h
    cases hf : foldE (refStep O cfg fa) st0 (List.range (models.length - 1)) with
    | error e => rw [hf, bindE_err] at h; cases h
    | ok st =>
      rw [hf, bindE_ok] at h
      cases h
      exact ⟨st0, st, rfl, hf, rfl⟩

theorem refStep_ok {O : Oracles} {cfg : AlignCfg} {fa : Bool} {st : RState}
    {i : Nat} {st' : RState} (h : refStep O cfg fa st i = .ok st') :
    ∃ mAr mBr mA mB f,
      st.align_models_ref.get? i = some mAr ∧
      st.align_models_ref.get? (i + 1) = some mBr ∧
      st.align_models.get? i = some mA ∧
      st.align_models.get? (i + 1) = some mB ∧
      getUns (regWriteB cfg (O.regOut mAr mBr cfg.key_added none) mBr)
        cfg.vecfld_key_added = .ok f ∧
      ∃ bc mB2,
        ((fa = true ∧
          bc = ⟨i, f, true,
            (O.transAssign (setUns mB cfg.vecfld_key_added f) mA f).2, none,
            (O.transAssign (setUns mB cfg.vecfld_key_added f) mA f).1⟩ ∧
          mB2 = setObsm (setUns mB cfg.vecfld_key_added f) cfg.key_added
            (O.transAssign (setUns mB cfg.vecfld_key_added f) mA f).2) ∨
         (fa = false ∧ ∃ q,
          getObsm (setUns mB cfg.vecfld_key_added f) cfg.spatial_key = .ok q ∧
          bc = ⟨i, f, false, (O.transOut f q).nonrigid,
            some (O.transOut f q).rigid,
            (O.regOut mAr mBr cfg.key_added none).P⟩ ∧
          mB2 = setObsm (setObsm (setUns mB cfg.vecfld_key_added f)
            cfg.key_added (O.transOut f q).nonrigid) "Rigid_align_spatial"
            (O.transOut f q).rigid)) ∧
        st' = { align_models := st.align_models.set (i + 1) mB2
                align_models_ref := (st.align_models_ref.set i
                  (regWriteA cfg (O.regOut mAr mBr cfg.key_added none) mAr)).set
                  (i + 1) (regWriteB cfg (O.regOut mAr mBr cfg.key_added none) mBr)
                pis := st.pis ++ [bc.Pout]
                pis_ref := st.pis_ref ++ [(O.regOut mAr mBr cfg.key_added none).P]
                sigma2s := st.sigma2s ++ [(O.regOut mAr mBr cfg.key_added none).sigma2]
                regCalls := st.regCalls ++
                  [⟨i, mAr, mBr, cfg.key_added, none,
                    O.regOut mAr mBr cfg.key_added none⟩]
                backCalls := st.backCalls ++ [bc] } := by
  simp only [refStep] at h
  cases hAr : getAt st.align_models_ref i with
  | error e => rw [hAr, bindE_err] at h; cases h
  | ok mAr =>
    rw [hAr, bindE_ok] at h
    cases hBr : getAt st.align_models_ref (i + 1) with
    | error e => rw [hBr, bindE_err] at h; cases h
    | ok mBr =>
      rw [hBr, bindE_ok] at h
      cases hA : getAt st.align_models i with
      | error e => rw [hA, bindE_err] at h; cases h
      | ok mA =>
        rw [hA, bindE_ok] at h
        cases hB : getAt st.align_models (i + 1) with
        | error e => rw [hB, bindE_err] at h; cases h
        | ok mB =>
          rw [hB, bindE_ok] at h
          cases hF : getUns (regWriteB cfg (O.regOut mAr mBr cfg.key_added none) mBr)
              cfg.vecfld_key_added with
          | error e => rw [hF, bindE_err] at h; cases h
          | ok f =>
            rw [hF, bindE_ok] at h
            refine ⟨mAr, mBr, mA, mB, f, getAt_ok.mp hAr, getAt_ok.mp hBr,
              getAt_ok.mp hA, getAt_ok.mp hB, hF, ?_⟩
            cases hfa : fa with
            | true =>
              rw [hfa] at h
              simp only [if_true] at h
              rw [bindE_ok] at h
              cases h
              exact ⟨_, _, Or.inl ⟨rfl, rfl, rfl⟩, rfl⟩
            | false =>
              rw [hfa] at h
              simp only [Bool.false_eq_true, if_false] at h
              cases hq : getObsm (setUns mB cfg.vecfld_key_added f)
                  cfg.spatial_key with
              | error e => rw [hq, bindE_err] at h; cases h
              | ok q =>
                rw [hq, bindE_ok, bindE_ok] at h
                cases h
                exact ⟨_, _, Or.inr ⟨rfl, q, rfl, rfl, rfl⟩, rfl⟩

/-! ## Small list helpers -/

theorem get?_lt {α : Type} {l : List α} {n : Nat} {x : α}
    (h : l.get? n = some x) : n < l.length := by
  by_contra hn
  rw [List.get?_eq_none.mpr (Nat.le_of_not_lt hn)] at h
  cases h

theorem get?_exists {α : Type} {l : List α} {n : Nat} (h : n < l.length) :
    ∃ x, l.get? n = some x := by
  cases hx : l.get? n with
  | none => rw [List.get?_eq_none] at hx; omega
  | some x => exact ⟨x, rfl⟩

theorem seedAllFn_hit {cfg : AlignCfg} {m : AnnData} {raw : Coords} {q : String}
    (hq : q = "optimal_RnA" ∨ q = "Coarse_alignment" ∨
      q = "Rigid_3d_align_spatial" ∨ q = cfg.key_added) :
    (seedAllFn cfg m raw).obsm q = some raw := by
  rw [seedAllFn_obsm]
  rcases hq with hh | hh | hh | hh <;> subst hh <;> (repeat' split) <;> simp_all

theorem seedAllFn_miss {cfg : AlignCfg} {m : AnnData} {raw : Coords} {q : String}
    (h1 : q ≠ cfg.key_added) (h2 : q ≠ "Rigid_3d_align_spatial")
    (h3 : q ≠ "Coarse_alignment") (h4 : q ≠ "optimal_RnA") :
    (seedAllFn cfg m raw).obsm q = m.obsm q := by
  rw [seedAllFn_obsm, if_neg h4, if_neg h3, if_neg h2, if_neg h1]

/-! ## Concrete fixtures used by witnesses and counterexamples -/

/-- Deterministic oracle used to evaluate the pipelines on concrete data. -/
def oracle0 : Oracles where
  regOut := fun _ _ _ _ => ⟨[[1]], [[2]], 7, 0, 3, 4⟩
  transOut := fun _ _ => ⟨[[5]], 0, [[6]]⟩
  transAssign := fun _ _ _ => (9, [[8]])
  downsampleOne := fun m => m

/-- The default configuration of both aligners. -/
def cfg0 : AlignCfg where
  spatial_key := "spatial"
  key_added := "align_spatial"
  iter_key_added := none
  vecfld_key_added := "VecFld_morpho"
  label_key := none

/-- A sample carrying only raw spatial coordinates. -/
def mSpatial (c : Coords) : AnnData where
  obsm := fun k => if k = "spatial" then some c else none
  obs := fun _ => none
  uns := fun _ => none

def m0 : AnnData := mSpatial [[0, 0], [1, 1]]

def mB0 : AnnData := mSpatial [[2, 2]]

/-! ## Claim C5 -/

/-- C5: in `morpho_align`, before any pairwise registration runs, every
sample's four seeded coordinate slots (`key_added`,
`"Rigid_3d_align_spatial"`, `"Coarse_alignment"`, `"optimal_RnA"`) on the
loop's initial sample list (the copies of the seeded caller samples) are
equal, bit for bit, to that sample's raw spatial-coordinate input. -/
theorem claim_C5 {cfg : AlignCfg} {ms seeded : List AnnData}
    (h : seedPhase cfg ms = .ok seeded) {j : Nat} {m : AnnData}
    (hm : ms.get? j = some m) :
    ∃ raw, m.obsm cfg.spatial_key = some raw ∧
      ∃ m', (seeded.map adCopy).get? j = some m' ∧
        m'.obsm cfg.key_added = some raw ∧
        m'.obsm "Rigid_3d_align_spatial" = some raw ∧
        m'.obsm "Coarse_alignment" = some raw ∧
        m'.obsm "optimal_RnA" = some raw ∧
        m'.obsm cfg.spatial_key = some raw := by
  obtain ⟨raw, hr, hg⟩ := seedPhase_ok_get h hm
  rw [map_adCopy]
  refine ⟨raw, hr, seedAllFn cfg m raw, hg, ?_, ?_, ?_, ?_, seedAllFn_spatial hr⟩
  · exact seedAllFn_hit (Or.inr (Or.inr (Or.inr rfl)))
  · exact seedAllFn_hit (Or.inr (Or.inr (Or.inl rfl)))
  · exact seedAllFn_hit (Or.inr (Or.inl rfl))
  · exact seedAllFn_hit (Or.inl rfl)

/-- Witness for C5 at a concrete one-sample input. -/
theorem claim_C5_witness :
    ∃ seeded, seedPhase cfg0 [m0] = .ok seeded ∧
      ∃ raw, m0.obsm cfg0.spatial_key = some raw ∧
        ∃ m', (seeded.map adCopy).get? 0 = some m' ∧
          m'.obsm cfg0.key_added = some raw ∧
          m'.obsm "Rigid_3d_align_spatial" = some raw ∧
          m'.obsm "Coarse_alignment" = some raw ∧
          m'.obsm "optimal_RnA" = some raw ∧
          m'.obsm cfg0.spatial_key = some raw := by
  refine ⟨_, rfl, ?_⟩
  exact @claim_C5 cfg0 [m0] _ rfl 0 m0 rfl

/-! ## Claim C3 -/

/-- C3: for `N >= 1` input samples, `morpho_align` returns exactly `N`
aligned sample copies, exactly `N - 1` assignment matrices and `N - 1`
variance estimates; for `N = 1` the pair loop executes zero times, the
result lists are empty, and the single anchor sample is returned as a copy
(with the four seeded slots) without any registration. -/
theorem claim_C3 {O : Oracles} {cfg : AlignCfg} {models : List AnnData}
    {r : AlignResult} (h : morpho_align O cfg models = .ok r)
    (hN : 1 ≤ models.length) :
    r.align_models.length = models.length ∧
    r.pis.length = models.length - 1 ∧
    r.sigma2s.length = models.length - 1 ∧
    (∀ m, models = [m] → r.pis = [] ∧ r.sigma2s = [] ∧ r.regCalls = [] ∧
      ∃ raw, m.obsm cfg.spatial_key = some raw ∧
        r.align_models = [seedAllFn cfg m raw]) := by
  obtain ⟨seeded, st, hs, hf, hr⟩ := morpho_align_ok h
  have hinv := @foldE_range_inv AState
    (fun n t => t.align_models.length = models.length ∧ t.pis.length = n ∧
      t.sigma2s.length = n ∧ t.regCalls.length = n)
    (alignStep O cfg)
    (by
      intro k s s' hP hstep
      obtain ⟨mA, mB, sim, f, q, hA, hB, hS, hF, hQ, hst'⟩ := alignStep_ok hstep
      rw [hst']
      exact ⟨by simp [List.length_set, hP.1], by simp [hP.2.1],
        by simp [hP.2.2.1], by simp [hP.2.2.2]⟩)
  have h0 : (⟨seeded, [], [], [], []⟩ : AState).align_models.length = models.length ∧
      (⟨seeded, [], [], [], []⟩ : AState).pis.length = 0 ∧
      (⟨seeded, [], [], [], []⟩ : AState).sigma2s.length = 0 ∧
      (⟨seeded, [], [], [], []⟩ : AState).regCalls.length = 0 :=
    ⟨seedPhase_ok_length hs, rfl, rfl, rfl⟩
  obtain ⟨hlen, hpis, hsig, hreg⟩ := hinv (models.length - 1) h0 hf
  subst hr
  refine ⟨hlen, hpis, hsig, ?_⟩
  intro m hm
  subst hm
  simp only [List.length_cons, List.length_nil] at hf
  simp only [List.range_zero, foldE] at hf
  cases hf
  obtain ⟨raw, hraw, hg⟩ := seedPhase_ok_get hs (show [m].get? 0 = some m from rfl)
  have hl1 : seeded.length = 1 := seedPhase_ok_length hs
  obtain ⟨a, ha⟩ := List.length_eq_one.mp hl1
  subst ha
  simp only [List.get?] at hg
  cases hg
  exact ⟨rfl, rfl, rfl, raw, hraw, rfl⟩

/-- Witness for C3 at a concrete one-sample input. -/
theorem claim_C3_witness :
    ∃ r, morpho_align oracle0 cfg0 [m0] = .ok r ∧ 1 ≤ ([m0] : List AnnData).length ∧
      r.align_models.length = 1 ∧ r.pis = [] ∧ r.sigma2s = [] := by
  refine ⟨_, rfl, by decide, ?_⟩
  have hc := @claim_C3 oracle0 cfg0 [m0] _ rfl (by decide)
  obtain ⟨h1, _, _, h4⟩ := hc
  obtain ⟨hp, hsig, _, _⟩ := h4 m0 rfl
  exact ⟨h1, hp, hsig⟩

/-! ## Claim C1 -/

/-- C1 counterexample: `morpho_align` writes the output coordinate slot onto
the caller's own input sample (the seeding loops run on `models` before the
copies are taken), so a sample that had no `"align_spatial"` slot before the
call has one afterwards — the claim that no new coordinate slots are written
onto the caller's input samples is false. -/
theorem claim_C1_counterexample :
    m0.obsm "align_spatial" = none ∧
    ∃ r, morpho_align oracle0 cfg0 [m0] = .ok r ∧
      ∃ m', r.callerModels.get? 0 = some m' ∧
        m'.obsm "align_spatial" = some [[0, 0], [1, 1]] :=
  ⟨rfl, _, rfl, _, rfl, rfl⟩

/-- C1 amended: `morpho_align_ref` returns with the caller's two input lists
exactly as they were, but `morpho_align` writes the four seeded coordinate
slots (`key_added`, `"Rigid_3d_align_spatial"`, `"Coarse_alignment"`,
`"optimal_RnA"`) onto the caller's samples before copying; each seeded slot
holds the sample's raw spatial coordinates and every other `obsm` slot, the
`obs` columns and the `uns` store of the caller's samples are unchanged. -/
theorem claim_C1_amended :
    (∀ (O : Oracles) (cfg : AlignCfg) (fa : Bool) (models : List AnnData)
      (models_ref : Option (List AnnData)) (r : RefResult),
      morpho_align_ref O cfg fa models models_ref = .ok r →
      r.callerModels = models ∧ r.callerModelsRef = models_ref) ∧
    (∀ (O : Oracles) (cfg : AlignCfg) (models : List AnnData) (r : AlignResult),
      morpho_align O cfg models = .ok r →
      r.callerModels.length = models.length ∧
      ∀ j m, models.get? j = some m →
        ∃ raw, m.obsm cfg.spatial_key = some raw ∧
          ∃ m', r.callerModels.get? j = some m' ∧
            m'.obs = m.obs ∧ m'.uns = m.uns ∧
            m'.obsm cfg.key_added = some raw ∧
            m'.obsm "Rigid_3d_align_spatial" = some raw ∧
            m'.obsm "Coarse_alignment" = some raw ∧
            m'.obsm "optimal_RnA" = some raw ∧
            ∀ q, q ≠ cfg.key_added → q ≠ "Rigid_3d_align_spatial" →
              q ≠ "Coarse_alignment" → q ≠ "optimal_RnA" →
              m'.obsm q = m.obsm q) := by
  constructor
  · intro O cfg fa models models_ref r h
    obtain ⟨st0, st, h0, hf, hr⟩ := morpho_align_ref_ok h
    rw [hr]
    exact ⟨rfl, rfl⟩
  · intro O cfg models r h
    obtain ⟨seeded, st, hs, hf, hr⟩ := morpho_align_ok h
    subst hr
    refine ⟨seedPhase_ok_length hs, ?_⟩
    intro j m hm
    obtain ⟨raw, hraw, hg⟩ := seedPhase_ok_get hs hm
    refine ⟨raw, hraw, seedAllFn cfg m raw, hg, seedAllFn_obs cfg m raw,
      seedAllFn_uns cfg m raw, ?_, ?_, ?_, ?_, ?_⟩
    · exact seedAllFn_hit (Or.inr (Or.inr (Or.inr rfl)))
    · exact seedAllFn_hit (Or.inr (Or.inr (Or.inl rfl)))
    · exact seedAllFn_hit (Or.inr (Or.inl rfl))
    · exact seedAllFn_hit (Or.inl rfl)
    · intro q h1 h2 h3 h4
      exact seedAllFn_miss h1 h2 h3 h4

/-- Witness for the amended C1 at concrete inputs. -/
theorem claim_C1_witness :
    (∃ r, morpho_align_ref oracle0 cfg0 true [m0] none = .ok r ∧
      r.callerModels = [m0] ∧ r.callerModelsRef = none) ∧
    (∃ r, morpho_align oracle0 cfg0 [m0] = .ok r ∧
      r.callerModels.length = 1) := by
  constructor
  · refine ⟨_, rfl, ?_⟩
    exact claim_C1_amended.1 oracle0 cfg0 true [m0] none _ rfl
  · refine ⟨_, rfl, ?_⟩
    exact (claim_C1_amended.2 oracle0 cfg0 [m0] _ rfl).1

/-! ## Claim C2 -/

/-- Per-point categorical values for C2's failing input: sample A carries
labels `x, y`, sample B carries labels `y, x`, both over the category set
`x, y`. -/
def catX : Categorical := ⟨["x", "y"], ["x", "y"]⟩

def catYX : Categorical := ⟨["y", "x"], ["x", "y"]⟩

/-- C2: evaluation of the label-similarity-matrix construction at the
failing input (pair loop index `i = 0`, codes `codeA = [0, 1]`,
`codeB = [1, 0]`).  The claim demands entry `(j, i) = 0` iff
`codeA[i] = codeB[j]`; at `(j, i) = (1, 0)` we have `codeA[0] = 0 =
codeB[1]`, so the claim demands `0`, but the code compares every column
against `codeB[loop index] = codeB[0] = 1` and yields `1`.  The shape
(`[b x a]`) and binary-entry parts of the claim do hold. -/
theorem claim_C2_eval :
    computeCodes (unionCategories catX.categories catYX.categories)
      catX.values = [0, 1] ∧
    computeCodes (unionCategories catX.categories catYX.categories)
      catYX.values = [1, 0] ∧
    ∃ M, buildLabelSimMat catX catYX 0 = .ok M ∧
      M.rows = 2 ∧ M.cols = 2 ∧ M.entry 1 0 = 1 :=
  ⟨by decide, by decide, _, rfl, rfl, rfl, by decide⟩

/-! ## Claim C10 -/

/-- C10: in `morpho_align` with a label key supplied, every matrix passed to
`BA_align` at pair index `t` has all rows identical: entry `(j, c)` is `1`
iff `codeA[c] != codeB[t]`, where `t` is the pair-loop index — the matrix
depends on sample B's codes only through the single code at the pair-loop
index, not on row `j`'s own label. -/
theorem claim_C10 {O : Oracles} {cfg : AlignCfg} {models : List AnnData}
    {r : AlignResult} {lk : String} (h : morpho_align O cfg models = .ok r)
    (hlk : cfg.label_key = some lk) :
    ∀ t rc, r.regCalls.get? t = some rc →
      rc.i = t ∧
      ∃ catA catB M cBi,
        rc.sampleA.obs lk = some catA ∧
        rc.sampleB.obs lk = some catB ∧
        rc.addedSim = some M ∧
        (computeCodes (unionCategories catA.categories catB.categories)
          catB.values).get? t = some cBi ∧
        M.rows = catB.values.length ∧
        M.cols = catA.values.length ∧
        ∀ j c, j < catB.values.length →
          M.entry j c =
            if (computeCodes (unionCategories catA.categories catB.categories)
                catA.values).getD c 0 ≠ cBi then 1 else 0 := by
  obtain ⟨seeded, st, hs, hf, hr⟩ := morpho_align_ok h
  have hinv := @foldE_range_inv AState
    (fun n t => t.regCalls.length = n ∧
      ∀ u rc, t.regCalls.get? u = some rc →
        rc.i = u ∧ buildLabelSim cfg rc.sampleA rc.sampleB rc.i = .ok rc.addedSim)
    (alignStep O cfg)
    (by
      intro k s s' hP hstep
      obtain ⟨mA, mB, sim, f, q, hA, hB, hS, hF, hQ, hst'⟩ := alignStep_ok hstep
      rw [hst']
      constructor
      · simp [hP.1]
      · intro u rc hu
        simp only at hu
        by_cases hult : u < s.regCalls.length
        · rw [List.get?_append hult] at hu
          exact hP.2 u rc hu
        · have hlt := get?_lt hu
          simp only [List.length_append, List.length_cons, List.length_nil] at hlt
          have hue : u = s.regCalls.length := by omega
          subst hue
          rw [List.get?_concat_length] at hu
          cases hu
          rw [hP.1]
          exact ⟨rfl, hS⟩)
  have h0 : (⟨seeded, [], [], [], []⟩ : AState).regCalls.length = 0 ∧
      ∀ u rc, (⟨seeded, [], [], [], []⟩ : AState).regCalls.get? u = some rc →
        rc.i = u ∧ buildLabelSim cfg rc.sampleA rc.sampleB rc.i = .ok rc.addedSim := by
    refine ⟨rfl, ?_⟩
    intro u rc hu
    cases u <;> exact Option.noConfusion hu
  obtain ⟨hregLen, hitems⟩ := hinv (models.length - 1) h0 hf
  subst hr
  intro t rc ht
  obtain ⟨hi, hsim⟩ := hitems t rc ht
  obtain ⟨catA, catB, M, hcatA, hcatB, hM, hsome⟩ := buildLabelSim_ok_some hlk hsim
  obtain ⟨cBi, hcBi, hrows, hcols, hent, _⟩ := buildLabelSimMat_ok hM
  rw [hi] at hcBi
  exact ⟨hi, catA, catB, M, cBi, hcatA, hcatB, hsome, hcBi, hrows, hcols, hent⟩

/-- Configuration with a label key, for the labelled fixtures. -/
def cfg1 : AlignCfg := { cfg0 with label_key := some "celltype" }

/-- A labelled sample: raw coordinates plus a `"celltype"` column. -/
def mL0 : AnnData where
  obsm := fun k => if k = "spatial" then some [[0, 0], [1, 1]] else none
  obs := fun k => if k = "celltype" then some catX else none
  uns := fun _ => none

def mL1 : AnnData where
  obsm := fun k => if k = "spatial" then some [[2, 2], [3, 3]] else none
  obs := fun k => if k = "celltype" then some catYX else none
  uns := fun _ => none

/-- Witness for C10 at a concrete labelled two-sample input. -/
theorem claim_C10_witness :
    ∃ r, morpho_align oracle0 cfg1 [mL0, mL1] = .ok r ∧
      ∀ t rc, r.regCalls.get? t = some rc →
        rc.i = t ∧
        ∃ catA catB M cBi,
          rc.sampleA.obs "celltype" = some catA ∧
          rc.sampleB.obs "celltype" = some catB ∧
          rc.addedSim = some M ∧
          (computeCodes (unionCategories catA.categories catB.categories)
            catB.values).get? t = some cBi ∧
          M.rows = catB.values.length ∧
          M.cols = catA.values.length ∧
          ∀ j c, j < catB.values.length →
            M.entry j c =
              if (computeCodes (unionCategories catA.categories catB.categories)
                  catA.values).getD c 0 ≠ cBi then 1 else 0 := by
  refine ⟨_, rfl, ?_⟩
  exact @claim_C10 oracle0 cfg1 [mL0, mL1] _ "celltype" rfl rfl

/-! ## Claim C4 -/

/-- C4 counterexample: in a concrete two-sample run, the rigid-only
transform output (`[[6]]`) is stored under `"Rigid_align_spatial"`, while
the slot seeded in step 1 — `"Rigid_3d_align_spatial"` — still holds sample
B's raw coordinates `[[2, 2]]`; the claim that the transform output lands in
the seeded rigid slot is false. -/
theorem claim_C4_counterexample :
    ∃ r, morpho_align oracle0 cfg0 [m0, mB0] = .ok r ∧
      ∃ m tc, r.align_models.get? 1 = some m ∧
        r.transCalls.get? 0 = some tc ∧
        tc.out.rigid = [[6]] ∧
        m.obsm "Rigid_3d_align_spatial" = some [[2, 2]] ∧
        m.obsm "Rigid_3d_align_spatial" ≠ some tc.out.rigid ∧
        m.obsm "Rigid_align_spatial" = some tc.out.rigid :=
  ⟨_, rfl, _, _, rfl, rfl, rfl, rfl, by decide, rfl⟩

/-- C4 amended: for every pair `t`, `BA_transform` is invoked on sample
B's original raw spatial coordinates (the `spatial_key` slot), but its
rigid-only output is stored under `"Rigid_align_spatial"`, a slot distinct
from the rigid slot `"Rigid_3d_align_spatial"` seeded in step 1; after pair
`t`, the seeded rigid slot of sample `t+1` still holds the raw coordinates
(under the usage assumption that `spatial_key`/`key_added` do not collide
with the written slots). -/
theorem claim_C4_amended {O : Oracles} {cfg : AlignCfg} {models : List AnnData}
    {r : AlignResult} (h : morpho_align O cfg models = .ok r)
    (h1 : cfg.spatial_key ≠ cfg.key_added)
    (h2 : cfg.key_added ≠ "Rigid_align_spatial")
    (h3 : cfg.key_added ≠ "Rigid_3d_align_spatial") :
    ∀ t tc, r.transCalls.get? t = some tc →
      tc.i = t ∧
      ∃ m0 raw, models.get? (t + 1) = some m0 ∧
        m0.obsm cfg.spatial_key = some raw ∧
        tc.query = raw ∧
        ∃ m', r.align_models.get? (t + 1) = some m' ∧
          m'.obsm "Rigid_align_spatial" = some tc.out.rigid ∧
          m'.obsm "Rigid_3d_align_spatial" = some raw := by
  obtain ⟨seeded, st, hs, hf, hr⟩ := morpho_align_ok h
  have hseedlen := seedPhase_ok_length hs
  have hinv := @foldE_range_inv AState
    (fun n s => s.align_models.length = models.length ∧
      s.transCalls.length = n ∧
      (∀ j, n < j → s.align_models.get? j = seeded.get? j) ∧
      (∀ u tc, s.transCalls.get? u = some tc →
        tc.i = u ∧
        ∃ m0 raw, models.get? (u + 1) = some m0 ∧
          m0.obsm cfg.spatial_key = some raw ∧
          tc.query = raw ∧
          ∃ m', s.align_models.get? (u + 1) = some m' ∧
            m'.obsm "Rigid_align_spatial" = some tc.out.rigid ∧
            m'.obsm "Rigid_3d_align_spatial" = some raw))
    (alignStep O cfg)
    (by
      intro k s s' hP hstep
      obtain ⟨hPlen, hPtlen, hPut, hPcalls⟩ := hP
      obtain ⟨mA, mB, sim, f, q, hA, hB, hS, hF, hQ, hst'⟩ := alignStep_ok hstep
      have hk1lt : k + 1 < models.length := by
        have := get?_lt hB
        omega
      rw [hst']
      refine ⟨by simp [List.length_set, hPlen], by simp [hPtlen], ?_, ?_⟩
      · intro j hj
        rw [List.get?_set_ne _ _ (by omega : k + 1 ≠ j),
          List.get?_set_ne _ _ (by omega : k ≠ j)]
        exact hPut j (by omega)
      · intro u tc hu
        simp only at hu
        by_cases hult : u < s.transCalls.length
        · rw [List.get?_append hult] at hu
          obtain ⟨hti, m0, raw, hm0, hraw, hquery, m', hm', hrig, hr3d⟩ :=
            hPcalls u tc hu
          refine ⟨hti, m0, raw, hm0, hraw, hquery, ?_⟩
          by_cases huk : u + 1 = k
          · subst huk
            have hmA : mA = m' := by
              rw [hA] at hm'
              cases hm'
              rfl
            refine ⟨regWriteA cfg (O.regOut mA mB "optimal_RnA" sim) mA, ?_, ?_, ?_⟩
            · rw [List.get?_set_ne _ _ (by omega : u + 1 + 1 ≠ u + 1)]
              rw [List.get?_set_eq_of_lt]
              rw [hPlen]
              omega
            · rw [regWriteA_obsm, if_neg (fun hh => h2 (by rw [hh])), hmA, hrig]
            · rw [regWriteA_obsm, if_neg (fun hh => h3 (by rw [hh])), hmA, hr3d]
          · refine ⟨m', ?_, hrig, hr3d⟩
            rw [List.get?_set_ne _ _ (by omega : k + 1 ≠ u + 1),
              List.get?_set_ne _ _ (by omega : k ≠ u + 1)]
            exact hm'
        · have hlt := get?_lt hu
          simp only [List.length_append, List.length_cons, List.length_nil] at hlt
          have hue : u = s.transCalls.length := by omega
          subst hue
          rw [List.get?_concat_length] at hu
          cases hu
          rw [hPtlen]
          refine ⟨rfl, ?_⟩
          obtain ⟨m0, hm0⟩ := get?_exists (l := models) (by omega : k + 1 < models.length)
          obtain ⟨raw, hraw, hgseed⟩ := seedPhase_ok_get hs hm0
          have hmB : mB = seedAllFn cfg m0 raw := by
            have hBs := hB
            rw [hPut (k + 1) (by omega), hgseed] at hBs
            cases hBs
            rfl
          have hq : q = raw := by
            have hQ' := getObsm_ok.mp hQ
            rw [regWriteB_obsm, if_neg h1, hmB, seedAllFn_spatial hraw] at hQ'
            cases hQ'
            rfl
          refine ⟨m0, raw, hm0, hraw, by rw [hq], ?_⟩
          refine ⟨setObsm (regWriteB cfg (O.regOut mA mB "optimal_RnA" sim) mB)
            "Rigid_align_spatial" (O.transOut f q).rigid, ?_, ?_, ?_⟩
          · rw [List.get?_set_eq_of_lt]
            rw [List.length_set, hPlen]
            omega
          · rw [setObsm_obsm, if_pos rfl]
          · rw [setObsm_obsm,
              if_neg (by decide : ¬ ("Rigid_3d_align_spatial" = "Rigid_align_spatial")),
              regWriteB_obsm, if_neg (fun hh => h3 (by rw [hh])), hmB,
              seedAllFn_hit (Or.inr (Or.inr (Or.inl rfl)))])
  have h0 : (⟨seeded, [], [], [], []⟩ : AState).align_models.length = models.length ∧
      (⟨seeded, [], [], [], []⟩ : AState).transCalls.length = 0 ∧
      (∀ j, 0 < j → (⟨seeded, [], [], [], []⟩ : AState).align_models.get? j =
        seeded.get? j) ∧
      (∀ u tc, (⟨seeded, [], [], [], []⟩ : AState).transCalls.get? u = some tc →
        tc.i = u ∧
        ∃ m0 raw, models.get? (u + 1) = some m0 ∧
          m0.obsm cfg.spatial_key = some raw ∧
          tc.query = raw ∧
          ∃ m', (⟨seeded, [], [], [], []⟩ : AState).align_models.get? (u + 1) =
            some m' ∧
            m'.obsm "Rigid_align_spatial" = some tc.out.rigid ∧
            m'.obsm "Rigid_3d_align_spatial" = some raw) := by
    refine ⟨hseedlen, rfl, fun j _ => rfl, ?_⟩
    intro u tc hu
    cases u <;> exact Option.noConfusion hu
  obtain ⟨_, _, _, hcalls⟩ := hinv (models.length - 1) h0 hf
  subst hr
  exact hcalls

/-- Witness for the amended C4 at a concrete two-sample input. -/
theorem claim_C4_witness :
    ∃ r, morpho_align oracle0 cfg0 [m0, mB0] = .ok r ∧
      ∀ t tc, r.transCalls.get? t = some tc →
        tc.i = t ∧
        ∃ mm raw, ([m0, mB0] : List AnnData).get? (t + 1) = some mm ∧
          mm.obsm cfg0.spatial_key = some raw ∧
          tc.query = raw ∧
          ∃ m', r.align_models.get? (t + 1) = some m' ∧
            m'.obsm "Rigid_align_spatial" = some tc.out.rigid ∧
            m'.obsm "Rigid_3d_align_spatial" = some raw := by
  refine ⟨_, rfl, ?_⟩
  exact @claim_C4_amended oracle0 cfg0 [m0, mB0] _ rfl (by decide) (by decide)
    (by decide)

/-! ## Claim C8 -/

/-- C8: in `morpho_align` with a label key supplied and at least two
samples, if any sample lacks the categorical column named by `label_key`
then the call fails (returns an error) rather than silently proceeding
without a label-similarity term. -/
theorem claim_C8 {O : Oracles} {cfg : AlignCfg} {models : List AnnData}
    {lk : String} (hlk : cfg.label_key = some lk)
    (hN : 2 ≤ models.length) {j : Nat} {m : AnnData}
    (hj : models.get? j = some m) (hmiss : m.obs lk = none) :
    ∃ e, morpho_align O cfg models = .error e := by
  cases hrun : morpho_align O cfg models with
  | error e => exact ⟨e, rfl⟩
  | ok r =>
    exfalso
    obtain ⟨seeded, st, hs, hf, _⟩ := morpho_align_ok hrun
    have hinv := @foldE_range_inv AState
      (fun n s =>
        (∀ j' m'', s.align_models.get? j' = some m'' →
          ∃ m₀, seeded.get? j' = some m₀ ∧ m''.obs = m₀.obs) ∧
        (∀ t, t < n → ∃ ma mb, seeded.get? t = some ma ∧
          seeded.get? (t + 1) = some mb ∧ (ma.obs lk).isSome ∧ (mb.obs lk).isSome))
      (alignStep O cfg)
      (by
        intro k s s' hP hstep
        obtain ⟨hPobs, hPchecked⟩ := hP
        obtain ⟨mA, mB, sim, f, q, hA, hB, hS, hF, hQ, hst'⟩ := alignStep_ok hstep
        obtain ⟨catA, catB, M, hcatA, hcatB, _, _⟩ := buildLabelSim_ok_some hlk hS
        rw [hst']
        constructor
        · intro j' m'' hm''
          simp only at hm''
          by_cases hj1 : j' = k + 1
          · subst hj1
            have hk1 : k + 1 < (s.align_models.set k
                (regWriteA cfg (O.regOut mA mB "optimal_RnA" sim) mA)).length := by
              rw [List.length_set]
              exact get?_lt hB
            rw [List.get?_set_eq_of_lt _ hk1] at hm''
            cases hm''
            obtain ⟨m₀, hm₀, hobs⟩ := hPobs (k + 1) mB hB
            exact ⟨m₀, hm₀, by rw [setObsm_obs, regWriteB_obs, hobs]⟩
          · by_cases hj0 : j' = k
            · rw [hj0] at hm''
              rw [List.get?_set_ne _ _ (by omega : k + 1 ≠ k)] at hm''
              have hk0 : k < s.align_models.length := get?_lt hA
              rw [List.get?_set_eq_of_lt _ hk0] at hm''
              cases hm''
              obtain ⟨m₀, hm₀, hobs⟩ := hPobs k mA hA
              rw [hj0]
              exact ⟨m₀, hm₀, by rw [regWriteA_obs, hobs]⟩
            · rw [List.get?_set_ne _ _ (fun hh => hj1 hh.symm),
                List.get?_set_ne _ _ (fun hh => hj0 hh.symm)] at hm''
              exact hPobs j' m'' hm''
        · intro t ht
          by_cases htk : t < k
          · exact hPchecked t htk
          · have hte : t = k := by omega
            subst hte
            obtain ⟨mA₀, hmA₀, hobsA⟩ := hPobs t mA hA
            obtain ⟨mB₀, hmB₀, hobsB⟩ := hPobs (t + 1) mB hB
            refine ⟨mA₀, mB₀, hmA₀, hmB₀, ?_, ?_⟩
            · rw [← hobsA, hcatA]
              rfl
            · rw [← hobsB, hcatB]
              rfl)
    have h0 : (∀ j' m'',
        (⟨seeded, [], [], [], []⟩ : AState).align_models.get? j' = some m'' →
          ∃ m₀, seeded.get? j' = some m₀ ∧ m''.obs = m₀.obs) ∧
        (∀ t, t < 0 → ∃ ma mb, seeded.get? t = some ma ∧
          seeded.get? (t + 1) = some mb ∧ (ma.obs lk).isSome ∧
          (mb.obs lk).isSome) := by
      refine ⟨fun j' m'' hm'' => ⟨m'', hm'', rfl⟩, fun t ht => absurd ht (by omega)⟩
    obtain ⟨_, hchecked⟩ := hinv (models.length - 1) h0 hf
    obtain ⟨raw, hraw, hgj⟩ := seedPhase_ok_get hs hj
    have hjN := get?_lt hj
    by_cases hjlt : j < models.length - 1
    · obtain ⟨ma, mb, hma, hmb, hsa, hsb⟩ := hchecked j hjlt
      rw [hgj] at hma
      cases hma
      rw [seedAllFn_obs, hmiss] at hsa
      exact Bool.noConfusion hsa
    · obtain ⟨ma, mb, hma, hmb, hsa, hsb⟩ :=
        hchecked (models.length - 2) (by omega)
      have hnn : models.length - 2 + 1 = j := by omega
      rw [hnn, hgj] at hmb
      cases hmb
      rw [seedAllFn_obs, hmiss] at hsb
      exact Bool.noConfusion hsb

/-- A sample with raw coordinates but no categorical columns at all. -/
def mNoLab : AnnData := mSpatial [[4, 4]]

/-- Witness for C8 at a concrete input where the second sample lacks the
label column. -/
theorem claim_C8_witness :
    cfg1.label_key = some "celltype" ∧ 2 ≤ ([mL0, mNoLab] : List AnnData).length ∧
    ([mL0, mNoLab] : List AnnData).get? 1 = some mNoLab ∧
    mNoLab.obs "celltype" = none ∧
    ∃ e, morpho_align oracle0 cfg1 [mL0, mNoLab] = .error e := by
  refine ⟨rfl, by decide, rfl, rfl, ?_⟩
  exact @claim_C8 oracle0 cfg1 [mL0, mNoLab] "celltype" rfl (by decide) 1 mNoLab
    rfl rfl

/-! ## Claim C9 -/

theorem append_one_get {α : Type} {l : List α} {x : α} {u : Nat} {y : α}
    (hu : (l ++ [x]).get? u = some y) :
    (u < l.length ∧ l.get? u = some y) ∨ (u = l.length ∧ y = x) := by
  by_cases hult : u < l.length
  · rw [List.get?_append hult] at hu
    exact Or.inl ⟨hult, hu⟩
  · have hlt := get?_lt hu
    simp only [List.length_append, List.length_cons, List.length_nil] at hlt
    have hue : u = l.length := by omega
    subst hue
    rw [List.get?_concat_length] at hu
    cases hu
    exact Or.inr ⟨rfl, rfl⟩

/-- C9: in both aligners the result lists are appended in strict pair order:
the `t`-th assignment matrix and the `t`-th variance estimate are the ones
produced by the `BA_align` call of pair `t` (and, for the reference aligner,
the `t`-th full-resolution assignment matrix is the one produced by pair
`t`'s back-projection step); the lists stay index-aligned with each
other. -/
theorem claim_C9 :
    (∀ (O : Oracles) (cfg : AlignCfg) (models : List AnnData) (r : AlignResult),
      morpho_align O cfg models = .ok r →
      r.pis.length = r.regCalls.length ∧
      r.sigma2s.length = r.regCalls.length ∧
      r.transCalls.length = r.regCalls.length ∧
      ∀ t rc, r.regCalls.get? t = some rc →
        rc.i = t ∧ r.pis.get? t = some rc.out.P ∧
        r.sigma2s.get? t = some rc.out.sigma2) ∧
    (∀ (O : Oracles) (cfg : AlignCfg) (fa : Bool) (models : List AnnData)
      (models_ref : Option (List AnnData)) (r : RefResult),
      morpho_align_ref O cfg fa models models_ref = .ok r →
      r.pis_ref.length = r.regCalls.length ∧
      r.sigma2s.length = r.regCalls.length ∧
      r.pis.length = r.regCalls.length ∧
      r.backCalls.length = r.regCalls.length ∧
      ∀ t rc, r.regCalls.get? t = some rc →
        rc.i = t ∧ r.pis_ref.get? t = some rc.out.P ∧
        r.sigma2s.get? t = some rc.out.sigma2 ∧
        ∃ bc, r.backCalls.get? t = some bc ∧ bc.i = t ∧
          r.pis.get? t = some bc.Pout) := by
  constructor
  · intro O cfg models r h
    obtain ⟨seeded, st, hs, hf, hr⟩ := morpho_align_ok h
    have hinv := @foldE_range_inv AState
      (fun n s => s.regCalls.length = n ∧
        s.transCalls.length = n ∧
        s.pis = s.regCalls.map (fun rc => rc.out.P) ∧
        s.sigma2s = s.regCalls.map (fun rc => rc.out.sigma2) ∧
        (∀ u rc, s.regCalls.get? u = some rc → rc.i = u))
      (alignStep O cfg)
      (by
        intro k s s' hP hstep
        obtain ⟨hPlen, hPtlen, hPpis, hPsig, hPidx⟩ := hP
        obtain ⟨mA, mB, sim, f, q, hA, hB, hS, hF, hQ, hst'⟩ := alignStep_ok hstep
        rw [hst']
        refine ⟨by simp [hPlen], by simp [hPtlen], ?_, ?_, ?_⟩
        · simp only [List.map_append, List.map_cons, List.map_nil]
          rw [hPpis]
        · simp only [List.map_append, List.map_cons, List.map_nil]
          rw [hPsig]
        · intro u rc hu
          rcases append_one_get hu with ⟨hlt, hget⟩ | ⟨hue, hrc⟩
          · exact hPidx u rc hget
          · rw [hrc, hue, hPlen])
    have h00 : (⟨seeded, [], [], [], []⟩ : AState).regCalls.length = 0 ∧
        (⟨seeded, [], [], [], []⟩ : AState).transCalls.length = 0 ∧
        (⟨seeded, [], [], [], []⟩ : AState).pis =
          (⟨seeded, [], [], [], []⟩ : AState).regCalls.map (fun rc => rc.out.P) ∧
        (⟨seeded, [], [], [], []⟩ : AState).sigma2s =
          (⟨seeded, [], [], [], []⟩ : AState).regCalls.map
            (fun rc => rc.out.sigma2) ∧
        (∀ u rc, (⟨seeded, [], [], [], []⟩ : AState).regCalls.get? u = some rc →
          rc.i = u) :=
      ⟨rfl, rfl, rfl, rfl,
        fun u rc hu => by cases u <;> exact Option.noConfusion hu⟩
    obtain ⟨hlen, htlen, hpis, hsig, hidx⟩ := hinv (models.length - 1) h00 hf
    subst hr
    refine ⟨by rw [hpis, List.length_map], by rw [hsig, List.length_map],
      by rw [htlen, hlen], ?_⟩
    intro t rc ht
    refine ⟨hidx t rc ht, ?_, ?_⟩
    · rw [hpis, List.get?_map, ht]
      rfl
    · rw [hsig, List.get?_map, ht]
      rfl
  · intro O cfg fa models models_ref r h
    obtain ⟨st0, st, h0, hf, hr⟩ := morpho_align_ref_ok h
    have hst0 : st0.pis = [] ∧ st0.pis_ref = [] ∧ st0.sigma2s = [] ∧
        st0.regCalls = [] ∧ st0.backCalls = [] := by
      obtain ⟨refsSeeded, mm, rest, raw, _, _, _, hst0⟩ := refInit_ok h0
      rw [hst0]
      exact ⟨rfl, rfl, rfl, rfl, rfl⟩
    have hinv := @foldE_range_inv RState
      (fun n s => s.regCalls.length = n ∧
        s.backCalls.length = n ∧
        s.pis_ref = s.regCalls.map (fun rc => rc.out.P) ∧
        s.sigma2s = s.regCalls.map (fun rc => rc.out.sigma2) ∧
        s.pis = s.backCalls.map (fun bc => bc.Pout) ∧
        (∀ u rc, s.regCalls.get? u = some rc → rc.i = u) ∧
        (∀ u bc, s.backCalls.get? u = some bc → bc.i = u))
      (refStep O cfg fa)
      (by
        intro k s s' hP hstep
        obtain ⟨hPr, hPb, hPpref, hPsig, hPpis, hPir, hPib⟩ := hP
        obtain ⟨mAr, mBr, mA, mB, f, hAr, hBr, hA, hB, hF, bc, mB2, hbc, hst'⟩ :=
          refStep_ok hstep
        have hbci : bc.i = k := by
          rcases hbc with ⟨_, hbceq, _⟩ | ⟨_, q, _, hbceq, _⟩ <;> rw [hbceq]
        rw [hst']
        refine ⟨by simp [hPr], by simp [hPb], ?_, ?_, ?_, ?_, ?_⟩
        · simp only [List.map_append, List.map_cons, List.map_nil]
          rw [hPpref]
        · simp only [List.map_append, List.map_cons, List.map_nil]
          rw [hPsig]
        · simp only [List.map_append, List.map_cons, List.map_nil]
          rw [hPpis]
        · intro u rc hu
          rcases append_one_get hu with ⟨hlt, hget⟩ | ⟨hue, hrc⟩
          · exact hPir u rc hget
          · rw [hrc, hue, hPr]
        · intro u bc' hu
          rcases append_one_get hu with ⟨hlt, hget⟩ | ⟨hue, hbceq⟩
          · exact hPib u bc' hget
          · rw [hbceq, hue, hPb]
            exact hbci)
    have h00r : st0.regCalls.length = 0 ∧ st0.backCalls.length = 0 ∧
        st0.pis_ref = st0.regCalls.map (fun rc => rc.out.P) ∧
        st0.sigma2s = st0.regCalls.map (fun rc => rc.out.sigma2) ∧
        st0.pis = st0.backCalls.map (fun bc => bc.Pout) ∧
        (∀ u rc, st0.regCalls.get? u = some rc → rc.i = u) ∧
        (∀ u bc, st0.backCalls.get? u = some bc → bc.i = u) := by
      obtain ⟨hp, hpr, hsg, hrg, hbk⟩ := hst0
      rw [hp, hpr, hsg, hrg, hbk]
      exact ⟨rfl, rfl, rfl, rfl, rfl,
        fun u rc hu => by cases u <;> exact Option.noConfusion hu,
        fun u bc hu => by cases u <;> exact Option.noConfusion hu⟩
    obtain ⟨hrl, hbl, hpref, hsig, hpis, hir, hib⟩ :=
      hinv (models.length - 1) h00r hf
    subst hr
    refine ⟨by rw [hpref, List.length_map], by rw [hsig, List.length_map],
      by rw [hpis, List.length_map, hbl, hrl], by rw [hbl, hrl], ?_⟩
    intro t rc ht
    refine ⟨hir t rc ht, ?_, ?_, ?_⟩
    · rw [hpref, List.get?_map, ht]
      rfl
    · rw [hsig, List.get?_map, ht]
      rfl
    · have htlt : t < st.backCalls.length := by
        rw [hbl, ← hrl]
        exact get?_lt ht
      obtain ⟨bc, hbc⟩ := get?_exists htlt
      refine ⟨bc, hbc, hib t bc hbc, ?_⟩
      rw [hpis, List.get?_map, hbc]
      rfl

/-- Witness for C9 at concrete two-sample runs of both aligners. -/
theorem claim_C9_witness :
    (∃ r, morpho_align oracle0 cfg0 [m0, mB0] = .ok r ∧
      r.pis.length = r.regCalls.length ∧
      ∀ t rc, r.regCalls.get? t = some rc →
        rc.i = t ∧ r.pis.get? t = some rc.out.P ∧
        r.sigma2s.get? t = some rc.out.sigma2) ∧
    (∃ r, morpho_align_ref oracle0 cfg0 false [m0, mB0] none = .ok r ∧
      r.backCalls.length = r.regCalls.length ∧
      ∀ t rc, r.regCalls.get? t = some rc →
        rc.i = t ∧ r.pis_ref.get? t = some rc.out.P ∧
        r.sigma2s.get? t = some rc.out.sigma2 ∧
        ∃ bc, r.backCalls.get? t = some bc ∧ bc.i = t ∧
          r.pis.get? t = some bc.Pout) := by
  constructor
  · refine ⟨_, rfl, ?_⟩
    have hc := claim_C9.1 oracle0 cfg0 [m0, mB0] _ rfl
    exact ⟨hc.1, hc.2.2.2⟩
  · refine ⟨_, rfl, ?_⟩
    have hc := claim_C9.2 oracle0 cfg0 false [m0, mB0] none _ rfl
    exact ⟨hc.2.2.2.1, hc.2.2.2.2⟩

/-! ## Claim C6 -/

/-- Output-slot discipline of the reference aligner's pair loop: after `k`
steps, full-resolution samples with index above `k` are exactly as the setup
phase left them, and each sample `1 <= j <= k` carries in its output slot the
coordinates produced by the back-projection step of its own pair
iteration. -/
theorem refLoop_output_slots {O : Oracles} {cfg : AlignCfg} {fa : Bool}
    {st0 : RState} (hkey : cfg.key_added ≠ "Rigid_align_spatial")
    (hb0 : st0.backCalls = []) :
    ∀ (k : Nat) {st : RState},
      foldE (refStep O cfg fa) st0 (List.range k) = .ok st →
      (∀ j, k < j → st.align_models.get? j = st0.align_models.get? j) ∧
      (∀ j, 1 ≤ j → j ≤ k → ∃ m bc, st.align_models.get? j = some m ∧
        st.backCalls.get? (j - 1) = some bc ∧ bc.i = j - 1 ∧
        m.obsm cfg.key_added = some bc.outCoords) := by
  intro k st hfold
  have hinv := @foldE_range_inv RState
    (fun n s =>
      s.backCalls.length = n ∧
      (∀ j, n < j → s.align_models.get? j = st0.align_models.get? j) ∧
      (∀ j, 1 ≤ j → j ≤ n → ∃ m bc, s.align_models.get? j = some m ∧
        s.backCalls.get? (j - 1) = some bc ∧ bc.i = j - 1 ∧
        m.obsm cfg.key_added = some bc.outCoords))
    (refStep O cfg fa)
    (by
      intro n s s' hP hstep
      obtain ⟨hPb, hPut, hPw⟩ := hP
      obtain ⟨mAr, mBr, mA, mB, f, hAr, hBr, hA, hB, hF, bc, mB2, hbc, hst'⟩ :=
        refStep_ok hstep
      have hn1 : n + 1 < s.align_models.length + 1 := by
        have := get?_lt hB
        omega
      have hbci : bc.i = n := by
        rcases hbc with ⟨_, hbceq, _⟩ | ⟨_, q, _, hbceq, _⟩ <;> rw [hbceq]
      have hbcout : mB2.obsm cfg.key_added = some bc.outCoords := by
        rcases hbc with ⟨_, hbceq, hmB2⟩ | ⟨_, q, _, hbceq, hmB2⟩
        · rw [hmB2, setObsm_obsm, if_pos rfl, hbceq]
        · rw [hmB2, setObsm_obsm, if_neg hkey, setObsm_obsm, if_pos rfl, hbceq]
      rw [hst']
      refine ⟨by simp [hPb], ?_, ?_⟩
      · intro j hj
        rw [List.get?_set_ne _ _ (by omega : n + 1 ≠ j)]
        exact hPut j (by omega)
      · intro j h1 hjn
        by_cases hje : j = n + 1
        · subst hje
          refine ⟨mB2, bc, ?_, ?_, ?_, hbcout⟩
          · rw [List.get?_set_eq_of_lt _ (get?_lt hB)]
          · simp only [Nat.add_sub_cancel]
            rw [← hPb, List.get?_concat_length]
          · simp only [Nat.add_sub_cancel]
            exact hbci
        · obtain ⟨m, bcx, hm, hbcx, hbcxi, hout⟩ := hPw j h1 (by omega)
          refine ⟨m, bcx, ?_, ?_, hbcxi, hout⟩
          · rw [List.get?_set_ne _ _ (fun hh => hje hh.symm)]
            exact hm
          · rw [List.get?_append (by rw [hPb]; omega : j - 1 < s.backCalls.length)]
            exact hbcx)
  have h00 : st0.backCalls.length = 0 ∧
      (∀ j, 0 < j → st0.align_models.get? j = st0.align_models.get? j) ∧
      (∀ j, 1 ≤ j → j ≤ 0 → ∃ m bc, st0.align_models.get? j = some m ∧
        st0.backCalls.get? (j - 1) = some bc ∧ bc.i = j - 1 ∧
        m.obsm cfg.key_added = some bc.outCoords) := by
    refine ⟨by rw [hb0]; rfl, fun j _ => rfl, fun j h1 h0 => ?_⟩
    omega
  obtain ⟨_, hu, hw⟩ := hinv k h00 hfold
  exact ⟨hu, hw⟩

/-- C6: in `morpho_align_ref`, before the pair loop only the reference
samples' output slot and the first full-resolution sample's output slot are
seeded to raw coordinates (full-resolution samples with index `>= 1` are
exactly the unseeded input copies); and for every full-resolution sample
other than the first, the output slot is written only by the back-projection
step of its own pair iteration, never before (after `k` steps, samples
beyond index `k` are untouched, and each sample `1 <= j <= k` holds its own
pair's back-projection output). -/
theorem claim_C6 :
    (∀ (O : Oracles) (cfg : AlignCfg) (models : List AnnData)
      (mref : Option (List AnnData)) (st0 : RState),
      refInit O cfg models mref = .ok st0 →
      (∀ j, 1 ≤ j → st0.align_models.get? j = models.get? j) ∧
      (∃ m rest raw, models = m :: rest ∧ m.obsm cfg.spatial_key = some raw ∧
        st0.align_models.get? 0 = some (setObsm m cfg.key_added raw)) ∧
      (∀ j mr, st0.align_models_ref.get? j = some mr →
        ∃ mr0 raw, ((refSource O models mref).map adCopy).get? j = some mr0 ∧
          mr0.obsm cfg.spatial_key = some raw ∧
          mr = setObsm mr0 cfg.key_added raw)) ∧
    (∀ (O : Oracles) (cfg : AlignCfg) (fa : Bool) (models : List AnnData)
      (mref : Option (List AnnData)) (st0 : RState) (k : Nat) (st : RState),
      refInit O cfg models mref = .ok st0 →
      cfg.key_added ≠ "Rigid_align_spatial" →
      foldE (refStep O cfg fa) st0 (List.range k) = .ok st →
      (∀ j, k < j → st.align_models.get? j = st0.align_models.get? j) ∧
      (∀ j, 1 ≤ j → j ≤ k → ∃ m bc, st.align_models.get? j = some m ∧
        st.backCalls.get? (j - 1) = some bc ∧ bc.i = j - 1 ∧
        m.obsm cfg.key_added = some bc.outCoords)) ∧
    (∀ (O : Oracles) (cfg : AlignCfg) (fa : Bool) (models : List AnnData)
      (mref : Option (List AnnData)) (r : RefResult),
      morpho_align_ref O cfg fa models mref = .ok r →
      cfg.key_added ≠ "Rigid_align_spatial" →
      ∀ j, 1 ≤ j → j < models.length →
        ∃ m bc, r.align_models.get? j = some m ∧
          r.backCalls.get? (j - 1) = some bc ∧ bc.i = j - 1 ∧
          m.obsm cfg.key_added = some bc.outCoords) := by
  refine ⟨?_, ?_, ?_⟩
  · intro O cfg models mref st0 h0
    obtain ⟨refsSeeded, m, rest, raw, hseed, hm, hraw, hst0⟩ := refInit_ok h0
    subst hst0
    subst hm
    refine ⟨?_, ⟨m, rest, raw, rfl, hraw, rfl⟩, ?_⟩
    · intro j hj
      cases j with
      | zero => omega
      | succ j => rfl
    · intro j mr hmr
      dsimp only at hmr
      have hjlt : j < ((refSource O (m :: rest) mref).map adCopy).length := by
        have hl := get?_lt hmr
        rw [seedStage_ok_length hseed] at hl
        exact hl
      obtain ⟨mr0, hmr0⟩ := get?_exists hjlt
      obtain ⟨raw', hraw', hg⟩ := seedStage_ok_get hseed hmr0
      rw [hg] at hmr
      cases hmr
      exact ⟨mr0, raw', hmr0, hraw', rfl⟩
  · intro O cfg fa models mref st0 k st h0 hkey hfold
    have hb0 : st0.backCalls = [] := by
      obtain ⟨refsSeeded, m, rest, raw, hseed, hm, hraw, hst0⟩ := refInit_ok h0
      rw [hst0]
    exact refLoop_output_slots hkey hb0 k hfold
  · intro O cfg fa models mref r h hkey
    obtain ⟨st0, st, h0, hf, hr⟩ := morpho_align_ref_ok h
    have hb0 : st0.backCalls = [] := by
      obtain ⟨refsSeeded, m, rest, raw, hseed, hm, hraw, hst0⟩ := refInit_ok h0
      rw [hst0]
    obtain ⟨_, hw⟩ := refLoop_output_slots hkey hb0 (models.length - 1) hf
    subst hr
    intro j h1 hj
    exact hw j h1 (by omega)

/-- Witness for C6 at a concrete two-sample input. -/
theorem claim_C6_witness :
    (∃ st0, refInit oracle0 cfg0 [m0, mB0] none = .ok st0 ∧
      ∀ j, 1 ≤ j → st0.align_models.get? j = ([m0, mB0] : List AnnData).get? j) ∧
    (∃ r, morpho_align_ref oracle0 cfg0 false [m0, mB0] none = .ok r ∧
      ∀ j, 1 ≤ j → j < 2 →
        ∃ m bc, r.align_models.get? j = some m ∧
          r.backCalls.get? (j - 1) = some bc ∧ bc.i = j - 1 ∧
          m.obsm cfg0.key_added = some bc.outCoords) := by
  constructor
  · refine ⟨_, rfl, ?_⟩
    exact (claim_C6.1 oracle0 cfg0 [m0, mB0] none _ rfl).1
  · refine ⟨_, rfl, ?_⟩
    exact claim_C6.2.2 oracle0 cfg0 false [m0, mB0] none _ rfl (by decide)

/-! ## Claim C7 -/

/-- Both chains of the reference aligner's loop keep their lengths. -/
theorem refLoop_lengths {O : Oracles} {cfg : AlignCfg} {fa : Bool}
    {st0 : RState} {N : Nat} (ha : st0.align_models.length = N)
    (hrl : st0.align_models_ref.length = N) :
    ∀ (k : Nat) {st : RState},
      foldE (refStep O cfg fa) st0 (List.range k) = .ok st →
      st.align_models.length = N ∧ st.align_models_ref.length = N := by
  intro k st hfold
  have hinv := @foldE_range_inv RState
    (fun _ s => s.align_models.length = N ∧ s.align_models_ref.length = N)
    (refStep O cfg fa)
    (by
      intro n s s' hP hstep
      obtain ⟨mAr, mBr, mA, mB, f, hAr, hBr, hA, hB, hF, bc, mB2, hbc, hst'⟩ :=
        refStep_ok hstep
      rw [hst']
      exact ⟨by simp [List.length_set, hP.1], by simp [List.length_set, hP.2]⟩)
  exact hinv k ⟨ha, hrl⟩ hfold

/-- C7: in `morpho_align_ref`, the field fitted on reference pair `t` is the
value stored in full-resolution sample `t+1`'s `uns` (the same value held by
reference sample `t+1`), and that very field is the one passed to the
back-projection call of pair `t`; the reference and full-resolution chains
have equal length throughout the loop. -/
theorem claim_C7 {O : Oracles} {cfg : AlignCfg} {fa : Bool}
    {models : List AnnData} {mref : Option (List AnnData)} {r : RefResult}
    (h : morpho_align_ref O cfg fa models mref = .ok r)
    (hlen : ∀ mr, mref = some mr → mr.length = models.length)
    (hiter : cfg.iter_key_added ≠ some cfg.vecfld_key_added) :
    r.align_models.length = models.length ∧
    r.align_models_ref.length = models.length ∧
    r.regCalls.length = r.backCalls.length ∧
    (∀ st0 k st, refInit O cfg models mref = .ok st0 →
      foldE (refStep O cfg fa) st0 (List.range k) = .ok st →
      st.align_models.length = models.length ∧
      st.align_models_ref.length = models.length) ∧
    (∀ t rc, r.regCalls.get? t = some rc →
      rc.i = t ∧
      ∃ bc, r.backCalls.get? t = some bc ∧ bc.fld = .fld rc.out.field ∧
        bc.i = t ∧
        (∃ mf, r.align_models.get? (t + 1) = some mf ∧
          mf.uns cfg.vecfld_key_added = some (.fld rc.out.field)) ∧
        (∃ mrf, r.align_models_ref.get? (t + 1) = some mrf ∧
          mrf.uns cfg.vecfld_key_added = some (.fld rc.out.field))) := by
  have hsrc : (refSource O models mref).length = models.length := by
    cases mref with
    | none => simp [refSource]
    | some mr => exact hlen mr rfl
  obtain ⟨st0, st, h0, hf, hr⟩ := morpho_align_ref_ok h
  have hst0a : st0.align_models.length = models.length := refInit_align_length h0
  have hst0r : st0.align_models_ref.length = models.length := by
    rw [refInit_ref_length h0, hsrc]
  have hlens := refLoop_lengths hst0a hst0r (models.length - 1) hf
  have hinv := @foldE_range_inv RState
    (fun n s =>
      s.regCalls.length = n ∧
      s.backCalls.length = n ∧
      (∀ u rc, s.regCalls.get? u = some rc →
        rc.i = u ∧
        ∃ bc, s.backCalls.get? u = some bc ∧ bc.fld = .fld rc.out.field ∧
          bc.i = u ∧
          (∃ mf, s.align_models.get? (u + 1) = some mf ∧
            mf.uns cfg.vecfld_key_added = some (.fld rc.out.field)) ∧
          (∃ mrf, s.align_models_ref.get? (u + 1) = some mrf ∧
            mrf.uns cfg.vecfld_key_added = some (.fld rc.out.field))))
    (refStep O cfg fa)
    (by
      intro n s s' hP hstep
      obtain ⟨hPr, hPb, hPcalls⟩ := hP
      obtain ⟨mAr, mBr, mA, mB, f, hAr, hBr, hA, hB, hF, bc, mB2, hbc, hst'⟩ :=
        refStep_ok hstep
      have hfval : f = .fld (O.regOut mAr mBr cfg.key_added none).field := by
        have hF' := getUns_ok.mp hF
        rw [regWriteB_uns _ _ _ _ hiter, if_pos rfl] at hF'
        cases hF'
        rfl
      have hbcf : bc.fld = f := by
        rcases hbc with ⟨_, hbceq, _⟩ | ⟨_, q, _, hbceq, _⟩ <;> rw [hbceq]
      have hbci : bc.i = n := by
        rcases hbc with ⟨_, hbceq, _⟩ | ⟨_, q, _, hbceq, _⟩ <;> rw [hbceq]
      have hmB2uns : mB2.uns cfg.vecfld_key_added = some f := by
        rcases hbc with ⟨_, _, hmB2⟩ | ⟨_, q, _, _, hmB2⟩
        · rw [hmB2]
          show (setUns mB cfg.vecfld_key_added f).uns cfg.vecfld_key_added = some f
          rw [setUns_uns, if_pos rfl]
        · rw [hmB2]
          show (setUns mB cfg.vecfld_key_added f).uns cfg.vecfld_key_added = some f
          rw [setUns_uns, if_pos rfl]
      rw [hst']
      refine ⟨by simp [hPr], by simp [hPb], ?_⟩
      intro u rc hu
      rcases append_one_get hu with ⟨hult, hget⟩ | ⟨hue, hrc⟩
      · obtain ⟨hi, bcx, hbcx, hbcxf, hbcxi, ⟨mf, hmf, hmfuns⟩,
          ⟨mrf, hmrf, hmrfuns⟩⟩ := hPcalls u rc hget
        rw [hPr] at hult
        refine ⟨hi, bcx, ?_, hbcxf, hbcxi, ?_, ?_⟩
        · rw [List.get?_append (by rw [hPb]; omega : u < s.backCalls.length)]
          exact hbcx
        · refine ⟨mf, ?_, hmfuns⟩
          rw [List.get?_set_ne _ _ (by omega : n + 1 ≠ u + 1)]
          exact hmf
        · rw [List.get?_set_ne _ _ (by omega : n + 1 ≠ u + 1)]
          by_cases huk : u + 1 = n
          · have hmArmrf : mAr = mrf := by
              rw [← huk] at hAr
              rw [hAr] at hmrf
              cases hmrf
              rfl
            refine ⟨regWriteA cfg (O.regOut mAr mBr cfg.key_added none) mAr,
              ?_, ?_⟩
            · rw [huk]
              rw [List.get?_set_eq_of_lt _ (get?_lt hAr)]
            · rw [regWriteA_uns _ _ _ _ hiter, hmArmrf, hmrfuns]
          · refine ⟨mrf, ?_, hmrfuns⟩
            rw [List.get?_set_ne _ _ (fun hh => huk hh.symm)]
            exact hmrf
      · subst hue
        rw [hPr]
        subst hrc
        refine ⟨rfl, bc, ?_, by rw [hbcf, hfval], by rw [hbci], ?_, ?_⟩
        · rw [← hPb, List.get?_concat_length]
        · refine ⟨mB2, ?_, ?_⟩
          · rw [List.get?_set_eq_of_lt _ (get?_lt hB)]
          · rw [hmB2uns, hfval]
        · refine ⟨regWriteB cfg (O.regOut mAr mBr cfg.key_added none) mBr, ?_, ?_⟩
          · have hlt2 : n + 1 < (s.align_models_ref.set n
                (regWriteA cfg (O.regOut mAr mBr cfg.key_added none) mAr)).length := by
              rw [List.length_set]
              exact get?_lt hBr
            rw [List.get?_set_eq_of_lt _ hlt2]
          · rw [regWriteB_uns _ _ _ _ hiter, if_pos rfl])
  have h00 : st0.regCalls.length = 0 ∧ st0.backCalls.length = 0 ∧
      (∀ u rc, st0.regCalls.get? u = some rc →
        rc.i = u ∧
        ∃ bc, st0.backCalls.get? u = some bc ∧ bc.fld = .fld rc.out.field ∧
          bc.i = u ∧
          (∃ mf, st0.align_models.get? (u + 1) = some mf ∧
            mf.uns cfg.vecfld_key_added = some (.fld rc.out.field)) ∧
          (∃ mrf, st0.align_models_ref.get? (u + 1) = some mrf ∧
            mrf.uns cfg.vecfld_key_added = some (.fld rc.out.field))) := by
    obtain ⟨refsSeeded, m, rest, raw, hseed, hm, hraw, hst0⟩ := refInit_ok h0
    rw [hst0]
    exact ⟨rfl, rfl, fun u rc hu => by cases u <;> exact Option.noConfusion hu⟩
  obtain ⟨hrl, hbl, hcalls⟩ := hinv (models.length - 1) h00 hf
  subst hr
  refine ⟨hlens.1, hlens.2, by rw [hrl, hbl], ?_, hcalls⟩
  intro st0' k st' h0' hf'
  have hst0a' : st0'.align_models.length = models.length :=
    refInit_align_length h0'
  have hst0r' : st0'.align_models_ref.length = models.length := by
    rw [refInit_ref_length h0', hsrc]
  exact refLoop_lengths hst0a' hst0r' k hf'

/-- Witness for C7 at a concrete two-sample input. -/
theorem claim_C7_witness :
    ∃ r, morpho_align_ref oracle0 cfg0 true [m0, mB0] none = .ok r ∧
      r.align_models.length = 2 ∧
      r.align_models_ref.length = 2 ∧
      r.regCalls.length = r.backCalls.length ∧
      ∀ t rc, r.regCalls.get? t = some rc →
        rc.i = t ∧
        ∃ bc, r.backCalls.get? t = some bc ∧ bc.fld = .fld rc.out.field ∧
          bc.i = t ∧
          (∃ mf, r.align_models.get? (t + 1) = some mf ∧
            mf.uns cfg0.vecfld_key_added = some (.fld rc.out.field)) ∧
          (∃ mrf, r.align_models_ref.get? (t + 1) = some mrf ∧
            mrf.uns cfg0.vecfld_key_added = some (.fld rc.out.field)) := by
  refine ⟨_, rfl, ?_⟩
  have hc := @claim_C7 oracle0 cfg0 true [m0, mB0] none _ rfl
    (fun mr hmr => Option.noConfusion hmr) (by decide)
  exact ⟨hc.1, hc.2.1, hc.2.2.1, hc.2.2.2.2⟩

end Spateo
